import Mathlib

/-!
# Verification of the gshield secure-wrapper policy engine

Shallow embedding of the security-policy core of the `gshield` repository
(`src/src/auth.ts`, `src/src/server.ts`, `src/src/redaction.ts`,
`src/policy.ts`, `src/rate-limit.ts`) together with proofs of the
spec claims.  JavaScript strings are modelled as Lean `String`
(operating on `String.data : List Char`); JavaScript numbers are modelled
as exact values (`Nat`/`Int`/`Rat`) plus explicit NaN/Infinity where the
code can see them; the Node `crypto` HMAC and the base64url/JSON payload
codec are external collaborators and are taken as function parameters.
-/

namespace GShield

/-! ## JavaScript string primitives -/

/-- JS `String.prototype.split(sep)` for a single-character separator,
on the character list of the string. -/
def jsSplitChar (sep : Char) : List Char → List (List Char)
  | [] => [[]]
  | c :: rest =>
    if c = sep then [] :: jsSplitChar sep rest
    else
      match jsSplitChar sep rest with
      | [] => [[c]]
      | t :: ts => (c :: t) :: ts

theorem jsSplitChar_ne_nil (sep : Char) (l : List Char) : jsSplitChar sep l ≠ [] := by
  cases l with
  | nil => simp [jsSplitChar]
  | cons c rest =>
    simp only [jsSplitChar]
    split
    · simp
    · split
      · simp
      · simp

/-- The number of split pieces is the separator count plus one. -/
theorem jsSplitChar_length (sep : Char) (l : List Char) :
    (jsSplitChar sep l).length = l.count sep + 1 := by
  induction l with
  | nil => simp [jsSplitChar]
  | cons c rest ih =>
    simp only [jsSplitChar]
    by_cases h : c = sep
    · simp [h, List.count_cons, ih]
    · simp only [if_neg h]
      cases hrec : jsSplitChar sep rest with
      | nil => exact absurd hrec (jsSplitChar_ne_nil sep rest)
      | cons t ts =>
        simp [List.count_cons, h, ← ih, hrec]

theorem jsSplitChar_no_sep {sep : Char} {l : List Char} (h : sep ∉ l) :
    jsSplitChar sep l = [l] := by
  induction l with
  | nil => rfl
  | cons c rest ih =>
    simp only [List.mem_cons, not_or] at h
    simp only [jsSplitChar]
    rw [if_neg (fun hc => h.1 hc.symm), ih h.2]

theorem jsSplitChar_append_sep {sep : Char} {l1 : List Char} (l2 : List Char)
    (h : sep ∉ l1) :
    jsSplitChar sep (l1 ++ sep :: l2) = l1 :: jsSplitChar sep l2 := by
  induction l1 with
  | nil => simp [jsSplitChar]
  | cons c rest ih =>
    simp only [List.mem_cons, not_or] at h
    simp only [List.cons_append, jsSplitChar, List.append_eq]
    rw [if_neg (fun hc => h.1 hc.symm), ih h.2]

/-- JS whitespace for `trim` (ASCII fragment). -/
def isJsSpace (c : Char) : Bool :=
  c = ' ' ∨ c = '\t' ∨ c = '\n' ∨ c = '\r' ∨ c = '\x0b' ∨ c = '\x0c'

/-- JS `String.prototype.trim` on character lists. -/
def jsTrimList (l : List Char) : List Char :=
  ((l.dropWhile isJsSpace).reverse.dropWhile isJsSpace).reverse

def jsTrim (s : String) : String := ⟨jsTrimList s.data⟩

/-- JS `String.prototype.toLowerCase` (ASCII fragment, as used on addresses). -/
def jsToLower (s : String) : String := ⟨s.data.map Char.toLower⟩

def jsSplit (sep : Char) (s : String) : List String :=
  (jsSplitChar sep s.data).map (fun l => ⟨l⟩)

/-- JS `String.prototype.includes` for one character. -/
def jsIncludesChar (s : String) (c : Char) : Bool := s.data.contains c

/-! ## Recipient allowlist (`src/policy.ts`: `normalizeAddress`, `allowedRecipient`) -/

/-- Character class of the regex `[a-z0-9._%+-]`. -/
def isLocalChar (c : Char) : Bool :=
  (('a' ≤ c ∧ c ≤ 'z') ∨ ('0' ≤ c ∧ c ≤ '9') ∨
    c = '.' ∨ c = '_' ∨ c = '%' ∨ c = '+' ∨ c = '-')

/-- Character class of the regex `[a-z0-9.-]`. -/
def isDomainChar (c : Char) : Bool :=
  (('a' ≤ c ∧ c ≤ 'z') ∨ ('0' ≤ c ∧ c ≤ '9') ∨ c = '.' ∨ c = '-')

def isLowerAlpha (c : Char) : Bool := 'a' ≤ c ∧ c ≤ 'z'

/-- Boolean match for `^[a-z0-9._%+-]+$`. -/
def matchesLocalPart (l : List Char) : Bool :=
  !l.isEmpty && l.all isLocalChar

/-- Boolean match for `^[a-z0-9.-]+\.[a-z]\x7b2,\x7d$`: every character in the
class, and the string ends in a dot followed by at least two lowercase
letters, with a non-empty part before that dot. -/
def matchesDomainPart (l : List Char) : Bool :=
  l.all isDomainChar &&
    (let r := l.reverse
     let tld := r.takeWhile isLowerAlpha
     decide (2 ≤ tld.length) &&
       (match r.drop tld.length with
        | '.' :: rest => !rest.isEmpty
        | _ => false))

/-- Embedding of `normalizeAddress` from `src/policy.ts`. -/
def normalizeAddress (input : String) : Option String :=
  let normalized := jsToLower (jsTrim input)
  if normalized = "" ∨ jsIncludesChar normalized ' ' then none
  else
    let parts := jsSplit '@' normalized
    if h : parts.length = 2 then
      let local0 := parts[0]
      let domain := parts[1]
      if local0 = "" ∨ domain = "" then none
      else if ¬ matchesLocalPart local0.data then none
      else if ¬ matchesDomainPart domain.data then none
      else some normalized
    else none

/-- Embedding of `allowedRecipient` from `src/policy.ts`. -/
def allowedRecipient (toAddr : String) (allowEmails allowDomains : List String)
    (allowAll : Bool := false) : Bool :=
  match normalizeAddress toAddr with
  | none => false
  | some normalized =>
    if allowAll then true
    else
      let domain := ((jsSplit '@' normalized).getD 1 "")
      if allowEmails.length = 0 ∧ allowDomains.length = 0 then false
      else if (allowEmails.map (fun x => jsTrim (jsToLower x))).contains normalized then true
      else if (allowDomains.map (fun x => jsTrim (jsToLower x))).contains domain then true
      else false

/-! ## Character-counting lemmas used for the multi-@ refusal -/

theorem char_toNat_ofNat {n : Nat} (h : n < 55296) : (Char.ofNat n).toNat = n := by
  rw [Char.ofNat, dif_pos (Or.inl h)]
  rfl

theorem char_toLower_eq_atSign {c : Char} : Char.toLower c = '@' ↔ c = '@' := by
  constructor
  · intro h
    by_cases hu : 65 ≤ Char.toNat c ∧ Char.toNat c ≤ 90
    · exfalso
      rw [Char.toLower, if_pos hu] at h
      have := congrArg Char.toNat h
      rw [char_toNat_ofNat (by omega)] at this
      have h64 : Char.toNat '@' = 64 := by decide
      omega
    · rwa [Char.toLower, if_neg hu] at h
  · intro h
    subst h
    decide

theorem count_dropWhile_isJsSpace {c : Char} (hc : isJsSpace c = false) (l : List Char) :
    (l.dropWhile isJsSpace).count c = l.count c := by
  induction l with
  | nil => rfl
  | cons x xs ih =>
    by_cases h : isJsSpace x
    · rw [List.dropWhile_cons_of_pos h, ih, List.count_cons]
      have hx : ¬ c = x := fun he => by rw [he, h] at hc; cases hc
      have hx2 : ¬ x = c := fun he => hx he.symm
      simp [hx, hx2]
    · rw [List.dropWhile_cons_of_neg (by simp [h])]

theorem count_jsTrimList_atSign (l : List Char) :
    (jsTrimList l).count '@' = l.count '@' := by
  unfold jsTrimList
  rw [List.count_reverse, count_dropWhile_isJsSpace (by decide),
    List.count_reverse, count_dropWhile_isJsSpace (by decide)]

theorem count_map_toLower_atSign (l : List Char) :
    (l.map Char.toLower).count '@' = l.count '@' := by
  induction l with
  | nil => rfl
  | cons x xs ih =>
    simp only [List.map_cons, List.count_cons, ih]
    congr 1
    by_cases hx : x = '@'
    · subst hx
      simp
    · have hlx : ¬ Char.toLower x = '@' := fun h => hx (char_toLower_eq_atSign.mp h)
      simp [hx, hlx]

/-- Any string of the shape `a@b@c` fails address normalization: its
normalized form still carries at least two `@` characters, so the split
on `@` cannot have exactly two parts. -/
theorem normalizeAddress_multi_atSign (a b c : String) :
    normalizeAddress (a ++ "@" ++ b ++ "@" ++ c) = none := by
  have hdata : (a ++ "@" ++ b ++ "@" ++ c).data
      = a.data ++ '@' :: b.data ++ '@' :: c.data := by
    simp [String.data_append]
  have hcount : 2 ≤ ((jsToLower (jsTrim (a ++ "@" ++ b ++ "@" ++ c))).data.count '@') := by
    show 2 ≤ ((jsTrimList (a ++ "@" ++ b ++ "@" ++ c).data).map Char.toLower).count '@'
    rw [count_map_toLower_atSign, count_jsTrimList_atSign, hdata]
    simp [List.count_append, List.count_cons]
    omega
  simp only [normalizeAddress]
  split
  · rfl
  · rw [dif_neg]
    have hlen : (jsSplit '@' (jsToLower (jsTrim (a ++ "@" ++ b ++ "@" ++ c)))).length
        = (jsToLower (jsTrim (a ++ "@" ++ b ++ "@" ++ c))).data.count '@' + 1 := by
      simp [jsSplit, jsSplitChar_length]
    omega

/-- C3 (counterexample): the claim lets an address through only when the
normalized address case-insensitively equals an email-list entry (or the
domain matches), and demands `false` otherwise.  The code additionally
*trims* each allowlist entry before comparing, so a padded entry
`" X@Y.COM "` — which is not case-insensitively equal to `"x@y.com"` —
still matches and the call returns `true`. -/
theorem allowedRecipient_claim_counterexample :
    allowedRecipient "x@y.com" [" X@Y.COM "] [] false = true ∧
      jsToLower " X@Y.COM " ≠ "x@y.com" ∧
      normalizeAddress "x@y.com" = some "x@y.com" := by
  refine ⟨by decide, by decide, by decide⟩

/-- C3 (amended): `allowedRecipient` rejects every input that fails
normalization — in particular every `a@b@c` shape — regardless of lists
and flags; for a normalized address it accepts when `allowAll` is set,
fails closed when both lists are empty, and otherwise accepts exactly
when the normalized address equals an email-list entry *after lowercasing
and trimming the entry*, or the normalized domain equals a domain-list
entry after the same entry normalization. -/
theorem allowedRecipient_claim_amended :
    (∀ (a b c : String) (es ds : List String) (f : Bool),
        allowedRecipient (a ++ "@" ++ b ++ "@" ++ c) es ds f = false)
  ∧ (∀ (s : String) (es ds : List String) (f : Bool),
        normalizeAddress s = none → allowedRecipient s es ds f = false)
  ∧ (∀ (s n : String) (es ds : List String),
        normalizeAddress s = some n → allowedRecipient s es ds true = true)
  ∧ (∀ (s : String), allowedRecipient s [] [] false = false)
  ∧ (allowedRecipient "x@y.com" [] [] = false)
  ∧ (∀ (s n : String) (es ds : List String),
        normalizeAddress s = some n →
          (allowedRecipient s es ds false = true ↔
            (¬(es = [] ∧ ds = []) ∧
              ((es.map (fun x => jsTrim (jsToLower x))).contains n = true ∨
                (ds.map (fun x => jsTrim (jsToLower x))).contains
                  ((jsSplit '@' n).getD 1 "") = true)))) := by
  refine ⟨?_, ?_, ?_, ?_, by decide, ?_⟩
  · intro a b c es ds f
    simp [allowedRecipient, normalizeAddress_multi_atSign]
  · intro s es ds f h
    simp [allowedRecipient, h]
  · intro s n es ds h
    simp [allowedRecipient, h]
  · intro s
    cases h : normalizeAddress s with
    | none => simp [allowedRecipient, h]
    | some n => simp [allowedRecipient, h]
  · intro s n es ds h
    simp only [allowedRecipient, h]
    have hlen : (es.length = 0 ∧ ds.length = 0) ↔ (es = [] ∧ ds = []) := by
      simp [List.length_eq_zero]
    split_ifs with h1 h2 h3 <;> simp_all

/-- Witness for `allowedRecipient_claim_amended` at concrete inputs. -/
theorem allowedRecipient_claim_amended_witness :
    allowedRecipient "a@b.com" ["A@B.COM"] [] false = true :=
  (allowedRecipient_claim_amended.2.2.2.2.2 "a@b.com" "a@b.com" ["A@B.COM"] []
      (by decide)).mpr ⟨by decide, Or.inl (by decide)⟩

/-! ## JavaScript number conversion and `clampEmailDays` (`src/policy.ts`)

JS numbers are IEEE doubles; the values flowing through `clampEmailDays`
are modelled exactly, as rationals plus explicit NaN/Infinity. -/

inductive JSNum where
  | nan : JSNum
  | posInf : JSNum
  | negInf : JSNum
  | val : Rat → JSNum
  deriving DecidableEq

def natOfDigits (l : List Char) : Nat :=
  l.foldl (fun acc c => acc * 10 + (c.toNat - 48)) 0

def isHexDigitChar (c : Char) : Bool :=
  c.isDigit ∨ ('a' ≤ c ∧ c ≤ 'f') ∨ ('A' ≤ c ∧ c ≤ 'F')

def hexDigitVal (c : Char) : Nat :=
  if c.isDigit then c.toNat - 48
  else if 'a' ≤ c ∧ c ≤ 'f' then c.toNat - 87
  else c.toNat - 55

def natOfHexDigits (l : List Char) : Nat :=
  l.foldl (fun acc c => acc * 16 + hexDigitVal c) 0

def natOfOctDigits (l : List Char) : Nat :=
  l.foldl (fun acc c => acc * 8 + (c.toNat - 48)) 0

def natOfBinDigits (l : List Char) : Nat :=
  l.foldl (fun acc c => acc * 2 + (c.toNat - 48)) 0

/-- Trailing exponent part of a JS decimal literal (`e`/`E` with optional
sign); `none` means the remainder is not a valid literal tail. -/
def parseExponentPart (l : List Char) (base : Rat) : Option Rat :=
  match l with
  | [] => some base
  | e :: r =>
    if e = 'e' ∨ e = 'E' then
      let sr : Bool × List Char :=
        match r with
        | '+' :: r2 => (true, r2)
        | '-' :: r2 => (false, r2)
        | _ => (true, r)
      let dpart := sr.2.takeWhile Char.isDigit
      if dpart.isEmpty ∨ ¬ (sr.2.drop dpart.length).isEmpty then none
      else if sr.1 then some (base * (10 : Rat) ^ natOfDigits dpart)
      else some (base / (10 : Rat) ^ natOfDigits dpart)
    else none

/-- Unsigned JS decimal literal (`digits`, `digits.digits`, `.digits`,
optionally followed by an exponent). -/
def parseDecimal (l : List Char) : Option Rat :=
  let ipart := l.takeWhile Char.isDigit
  let rest1 := l.drop ipart.length
  match rest1 with
  | '.' :: r2 =>
    let fpart := r2.takeWhile Char.isDigit
    let rest2 := r2.drop fpart.length
    if ipart.isEmpty ∧ fpart.isEmpty then none
    else parseExponentPart rest2
      ((natOfDigits ipart : Rat) + (natOfDigits fpart : Rat) / (10 : Rat) ^ fpart.length)
  | _ =>
    if ipart.isEmpty then none
    else parseExponentPart rest1 (natOfDigits ipart : Rat)

/-- JS `Number(string)` (the `ToNumber` string grammar: whitespace-trimmed,
empty means 0, signed decimal or `Infinity`, unsigned hex/octal/binary). -/
def jsStrToNum (s : String) : JSNum :=
  let t := jsTrimList s.data
  if t.isEmpty then .val 0
  else
    match t with
    | '+' :: r =>
      if r = "Infinity".data then .posInf
      else match parseDecimal r with
        | some q => .val q
        | none => .nan
    | '-' :: r =>
      if r = "Infinity".data then .negInf
      else match parseDecimal r with
        | some q => .val (-q)
        | none => .nan
    | '0' :: 'x' :: r =>
      if ¬ r.isEmpty ∧ r.all isHexDigitChar then .val (natOfHexDigits r) else .nan
    | '0' :: 'X' :: r =>
      if ¬ r.isEmpty ∧ r.all isHexDigitChar then .val (natOfHexDigits r) else .nan
    | '0' :: 'o' :: r =>
      if ¬ r.isEmpty ∧ r.all (fun c => '0' ≤ c ∧ c ≤ '7') then .val (natOfOctDigits r) else .nan
    | '0' :: 'O' :: r =>
      if ¬ r.isEmpty ∧ r.all (fun c => '0' ≤ c ∧ c ≤ '7') then .val (natOfOctDigits r) else .nan
    | '0' :: 'b' :: r =>
      if ¬ r.isEmpty ∧ r.all (fun c => c = '0' ∨ c = '1') then .val (natOfBinDigits r) else .nan
    | '0' :: 'B' :: r =>
      if ¬ r.isEmpty ∧ r.all (fun c => c = '0' ∨ c = '1') then .val (natOfBinDigits r) else .nan
    | _ =>
      if t = "Infinity".data then .posInf
      else match parseDecimal t with
        | some q => .val q
        | none => .nan

/-- JS `Number(x)` for `x : string | null`; `Number(null)` is `0`. -/
def jsNumberOfNullable (x : Option String) : JSNum :=
  match x with
  | none => .val 0
  | some s => jsStrToNum s

/-- Embedding of `clampEmailDays` from `src/policy.ts`: the route passes
`c.req.query('days') || null`, so a missing or empty query value arrives
as `null` here. -/
def clampEmailDays (requested : Option String) (maxRecentDays : Rat) : Rat :=
  let req : Rat :=
    match jsNumberOfNullable requested with
    | .val q => q
    | _ => maxRecentDays
  max 1 (min req maxRecentDays)

/-- C7 (counterexample): the claim says a missing `days` query value yields
the configured maximum.  The route passes `null` for a missing value, JS
`Number(null)` is `0`, `0` is finite, and the clamp raises it to `1` — so a
missing value yields `1`, not the maximum (here `5`). -/
theorem clampEmailDays_claim_counterexample :
    clampEmailDays none 5 = 1 ∧ (1 : Rat) ≠ 5 := by
  exact ⟨by rfl, by decide⟩

/-- C7 (amended): effective days equal `clamp(v, 1, maxRecentDays)` for a
finite parsed value `v` (so values ≤ 0 give 1 and values above the maximum
give the maximum), non-numeric values (NaN or an infinity) give the
configured maximum, and a missing or empty value — which reaches the clamp
as `null`, i.e. `0` — gives `1`. -/
theorem clampEmailDays_claim_amended (maxRecentDays : Rat) (hmax : 1 ≤ maxRecentDays) :
    (∀ (s : Option String) (v : Rat), jsNumberOfNullable s = .val v →
        clampEmailDays s maxRecentDays = max 1 (min v maxRecentDays)
          ∧ (v ≤ 0 → clampEmailDays s maxRecentDays = 1)
          ∧ (maxRecentDays < v → clampEmailDays s maxRecentDays = maxRecentDays))
  ∧ (∀ (s : Option String), (∀ v, jsNumberOfNullable s ≠ .val v) →
        clampEmailDays s maxRecentDays = maxRecentDays)
  ∧ clampEmailDays none maxRecentDays = 1 := by
  have hclamp : ∀ (s : Option String) (v : Rat), jsNumberOfNullable s = .val v →
      clampEmailDays s maxRecentDays = max 1 (min v maxRecentDays) := by
    intro s v hv
    simp [clampEmailDays, hv]
  refine ⟨?_, ?_, ?_⟩
  · intro s v hv
    refine ⟨hclamp s v hv, ?_, ?_⟩
    · intro hv0
      rw [hclamp s v hv, min_eq_left (le_trans hv0 (le_trans zero_le_one hmax)),
        max_eq_left (le_trans hv0 zero_le_one)]
    · intro hvm
      rw [hclamp s v hv, min_eq_right (le_of_lt hvm), max_eq_right hmax]
  · intro s hs
    cases hn : jsNumberOfNullable s with
    | val v => exact absurd hn (hs v)
    | nan => simp [clampEmailDays, hn, min_eq_left (le_refl maxRecentDays), max_eq_right hmax]
    | posInf => simp [clampEmailDays, hn, max_eq_right hmax]
    | negInf => simp [clampEmailDays, hn, max_eq_right hmax]
  · have h0 : jsNumberOfNullable none = .val 0 := rfl
    rw [hclamp none 0 h0, min_eq_left (le_trans zero_le_one hmax), max_eq_left zero_le_one]

/-- Witness for `clampEmailDays_claim_amended`: `days=10` under maximum 2
clamps to 2, matching the repository test `clampEmailDays('10', 2) = 2`. -/
theorem clampEmailDays_claim_amended_witness :
    clampEmailDays (some "10") 2 = 2 :=
  ((clampEmailDays_claim_amended 2 (by decide)).1 (some "10") 10 (by rfl)).2.2 (by decide)

/-! ## Calendar range clamp (`src/policy.ts`: `weekBounds`, `clampCalendarRange`)

Times are modelled as milliseconds since the Unix epoch (`Int`), the value
space of JS `Date`; UTC has no offsets, so `setUTCDate`/`setUTCHours`
arithmetic is exact millisecond arithmetic. -/

def dayMs : Int := 86400000

/-- Embedding of `setUTCHours(0, 0, 0, 0)`: floor to the start of the UTC day. -/
def startOfUTCDay (t : Int) : Int := t - t.emod dayMs

/-- Embedding of `setUTCHours(23, 59, 59, 999)`: last millisecond of the UTC day. -/
def endOfUTCDayMs (t : Int) : Int := startOfUTCDay t + (dayMs - 1)

/-- Embedding of `weekBounds` from `src/policy.ts`: Monday 00:00:00 UTC through Sunday
23:59:59 UTC of the week containing `now`.  `getUTCDay` is the weekday
with Sunday = 0; the epoch day was a Thursday (4). -/
def weekBounds (now : Int) : Int × Int :=
  let day := ((now.fdiv dayMs) + 4).emod 7
  let diffToMon := (day + 6).emod 7
  let start := startOfUTCDay now - diffToMon * dayMs
  (start, start + 6 * dayMs + 86399000)

/-- Result record of `clampCalendarRange`; the source field `end` is a Lean
keyword and is modelled as `stop`.  A `start` or `stop` of `none` is a JS
Invalid Date, whose time value is NaN. -/
structure ClampedRange where
  start : Option Int
  stop : Option Int
  min : Int
  max : Int
  deriving DecidableEq

/-- JS `<` on Date values compares the time values numerically; every
comparison involving an Invalid Date (time value NaN) is false. -/
def jsDateLt : Option Int → Option Int → Bool
  | some a, some b => a < b
  | _, _ => false

/-- Embedding of `clampCalendarRange` from `src/policy.ts`.  A requested query value
is `none` when missing or empty (`input.start ? new Date(input.start) : null`
treats the empty string as absent), `some none` when it is a non-empty
string that `new Date` cannot parse — a truthy Invalid Date, so the
default branch is skipped and every clamp comparison on it is false —
and `some (some v)` when it parses to epoch milliseconds `v`. -/
def clampCalendarRange (startQ endQ : Option (Option Int)) (now : Int)
    (maxPastDays maxFutureDays : Nat) (defaultThisWeek : Bool) : ClampedRange :=
  let min := startOfUTCDay (now - maxPastDays * dayMs)
  let max := endOfUTCDayMs (now + maxFutureDays * dayMs)
  let se : Option Int × Option Int :=
    match startQ, endQ with
    | some s, some e => (s, e)
    | _, _ =>
      if defaultThisWeek then (some (weekBounds now).1, some (weekBounds now).2)
      else (some min, some max)
  let s1 := if jsDateLt se.1 (some min) then some min else se.1
  let e1 := if jsDateLt (some max) se.2 then some max else se.2
  let e2 := if jsDateLt e1 s1 then s1 else e1
  ⟨s1, e2, min, max⟩

theorem startOfUTCDay_le (t : Int) : startOfUTCDay t ≤ t := by
  have h : 0 ≤ t.emod dayMs := Int.emod_nonneg t (by decide)
  simp only [startOfUTCDay]
  omega

theorem le_endOfUTCDayMs (t : Int) : t ≤ endOfUTCDayMs t := by
  have h : t.emod dayMs < dayMs := Int.emod_lt_of_pos t (by decide)
  simp only [endOfUTCDayMs, startOfUTCDay]
  omega

theorem weekBounds_start_le (now : Int) : (weekBounds now).1 ≤ now := by
  have h1 : 0 ≤ (((now.fdiv dayMs) + 4).emod 7 + 6).emod 7 :=
    Int.emod_nonneg _ (by decide)
  have h2 := startOfUTCDay_le now
  have h3 : (0 : Int) ≤ dayMs := by decide
  simp only [weekBounds]
  nlinarith

theorem ccr_bounds (now : Int) (p f : Nat) :
    startOfUTCDay (now - p * dayMs) ≤ now ∧ now ≤ endOfUTCDayMs (now + f * dayMs) := by
  have h1 : startOfUTCDay (now - p * dayMs) ≤ now - p * dayMs := startOfUTCDay_le _
  have h2 : now + f * dayMs ≤ endOfUTCDayMs (now + f * dayMs) := le_endOfUTCDayMs _
  have hd : (0 : Int) ≤ dayMs := by decide
  have hp : (0 : Int) ≤ (p : Int) * dayMs := mul_nonneg (Int.natCast_nonneg p) hd
  have hf : (0 : Int) ≤ (f : Int) * dayMs := mul_nonneg (Int.natCast_nonneg f) hd
  constructor <;> omega

/-- C8 (counterexample): the claim promises `min ≤ start ≤ end ≤ max` for
every pair of requested bounds, and the code violates it twice over.
First, it only clamps the requested start *up* to `min` and the requested
end *down* to `max`; a requested start beyond `max` (here two days past
epoch with `maxFutureDays = 0`) survives and forces `end = start > max`.
Second, a non-empty unparseable value becomes a truthy Invalid Date that
skips the default branch and passes every clamp as NaN, so the returned
start is not a date at all. -/
theorem clampCalendarRange_claim_counterexample :
    ((clampCalendarRange (some (some (2 * dayMs))) (some (some (2 * dayMs)))
          0 0 0 false).stop = some (2 * dayMs)
      ∧ (clampCalendarRange (some (some (2 * dayMs))) (some (some (2 * dayMs)))
          0 0 0 false).max < 2 * dayMs)
    ∧ (clampCalendarRange (some none) (some none) 0 0 0 true).start = none := by
  decide

/-- Evaluation of `clampCalendarRange` when both requested bounds parse. -/
theorem ccr_eq_both (s e now : Int) (p f : Nat) (w : Bool) :
    clampCalendarRange (some (some s)) (some (some e)) now p f w =
      ⟨some (max (startOfUTCDay (now - p * dayMs)) s),
       some (max (max (startOfUTCDay (now - p * dayMs)) s)
         (min (endOfUTCDayMs (now + f * dayMs)) e)),
       startOfUTCDay (now - p * dayMs), endOfUTCDayMs (now + f * dayMs)⟩ := by
  simp only [clampCalendarRange, jsDateLt, ClampedRange.mk.injEq]
  try dsimp only
  and_intros <;> (first | trivial |
    (split_ifs <;> simp_all only [decide_eq_true_eq, Option.some.injEq,
       Bool.not_eq_true, decide_eq_false_iff_not] <;> omega))

/-- Evaluation of `clampCalendarRange` when both requested bounds are
present but unparseable. -/
theorem ccr_eq_both_invalid (now : Int) (p f : Nat) (w : Bool) :
    clampCalendarRange (some none) (some none) now p f w =
      ⟨none, none, startOfUTCDay (now - p * dayMs),
       endOfUTCDayMs (now + f * dayMs)⟩ := rfl

/-- Evaluation of `clampCalendarRange` with an unparseable start and a
parsed end. -/
theorem ccr_eq_start_invalid (e now : Int) (p f : Nat) (w : Bool) :
    clampCalendarRange (some none) (some (some e)) now p f w =
      ⟨none, some (min (endOfUTCDayMs (now + f * dayMs)) e),
       startOfUTCDay (now - p * dayMs), endOfUTCDayMs (now + f * dayMs)⟩ := by
  simp only [clampCalendarRange, jsDateLt, ClampedRange.mk.injEq]
  try dsimp only
  and_intros <;> (first | trivial |
    (split_ifs <;> simp_all only [decide_eq_true_eq, Option.some.injEq,
       Bool.not_eq_true, decide_eq_false_iff_not] <;> omega))

/-- Evaluation of `clampCalendarRange` with a parsed start and an
unparseable end. -/
theorem ccr_eq_end_invalid (s now : Int) (p f : Nat) (w : Bool) :
    clampCalendarRange (some (some s)) (some none) now p f w =
      ⟨some (max (startOfUTCDay (now - p * dayMs)) s), none,
       startOfUTCDay (now - p * dayMs), endOfUTCDayMs (now + f * dayMs)⟩ := by
  simp only [clampCalendarRange, jsDateLt, ClampedRange.mk.injEq]
  try dsimp only
  and_intros <;> (first | trivial |
    (split_ifs <;> simp_all only [decide_eq_true_eq, Option.some.injEq,
       Bool.not_eq_true, decide_eq_false_iff_not] <;> omega))

/-- Evaluation of `clampCalendarRange` with a missing bound and
`defaultThisWeek` on. -/
theorem ccr_eq_default_week (sq en : Option (Option Int)) (h : sq = none ∨ en = none)
    (now : Int) (p f : Nat) :
    clampCalendarRange sq en now p f true =
      ⟨some (max (startOfUTCDay (now - p * dayMs)) (weekBounds now).1),
       some (max (max (startOfUTCDay (now - p * dayMs)) (weekBounds now).1)
         (min (endOfUTCDayMs (now + f * dayMs)) (weekBounds now).2)),
       startOfUTCDay (now - p * dayMs), endOfUTCDayMs (now + f * dayMs)⟩ := by
  cases sq with
  | none =>
    cases en <;>
      (simp only [clampCalendarRange, jsDateLt, ClampedRange.mk.injEq]
       try dsimp only
       and_intros <;> (first | trivial |
         (split_ifs <;> simp_all only [decide_eq_true_eq, Option.some.injEq,
            Bool.not_eq_true, decide_eq_false_iff_not] <;> omega)))
  | some s =>
    cases en with
    | none =>
      simp only [clampCalendarRange, jsDateLt, ClampedRange.mk.injEq]
      try dsimp only
      and_intros <;> (first | trivial |
        (split_ifs <;> simp_all only [decide_eq_true_eq, Option.some.injEq,
           Bool.not_eq_true, decide_eq_false_iff_not] <;> omega))
    | some e => simp at h

/-- Evaluation of `clampCalendarRange` with a missing bound and
`defaultThisWeek` off. -/
theorem ccr_eq_default_minmax (sq en : Option (Option Int)) (h : sq = none ∨ en = none)
    (now : Int) (p f : Nat) :
    clampCalendarRange sq en now p f false =
      ⟨some (startOfUTCDay (now - p * dayMs)), some (endOfUTCDayMs (now + f * dayMs)),
       startOfUTCDay (now - p * dayMs), endOfUTCDayMs (now + f * dayMs)⟩ := by
  have hb := ccr_bounds now p f
  have hmm : startOfUTCDay (now - p * dayMs) ≤ endOfUTCDayMs (now + f * dayMs) :=
    le_trans hb.1 hb.2
  cases sq with
  | none =>
    cases en <;>
      (simp only [clampCalendarRange, jsDateLt, ClampedRange.mk.injEq, if_true,
         if_false, Bool.false_eq_true]
       try dsimp only
       and_intros <;> (first | trivial |
         (split_ifs <;> simp_all only [decide_eq_true_eq, Option.some.injEq,
            Bool.not_eq_true, decide_eq_false_iff_not] <;> omega)))
  | some s =>
    cases en with
    | none =>
      simp only [clampCalendarRange, jsDateLt, ClampedRange.mk.injEq, if_true,
        if_false, Bool.false_eq_true]
      try dsimp only
      and_intros <;> (first | trivial |
        (split_ifs <;> simp_all only [decide_eq_true_eq, Option.some.injEq,
           Bool.not_eq_true, decide_eq_false_iff_not] <;> omega))
    | some e => simp at h

/-- C8 (amended): `clampCalendarRange` returns `min` = start of the UTC day
`maxPastDays` before now and `max` = last millisecond of the UTC day
`maxFutureDays` after now, with `min ≤ max` always.  When either requested
bound is missing or empty, start and end are valid dates satisfying
`min ≤ start ≤ end ≤ max`: the pre-clamp defaults are the Monday-to-Sunday
UTC week containing now (if `defaultThisWeek`) or `[min, max]`, then
clamped into range.  When both bounds are present, a bound supplied as a
non-empty unparseable string yields an Invalid Date that skips the default
branch and passes every clamp as NaN, so the corresponding result is not a
date at all; a parsed start is clamped up to `min` only, and for parsed
start and end, `end ≤ max` holds exactly if the requested start does not
exceed `max` — otherwise `start = end =` the requested start, beyond
`max`. -/
theorem clampCalendarRange_claim_amended (startQ endQ : Option (Option Int)) (now : Int)
    (maxPastDays maxFutureDays : Nat) (defaultThisWeek : Bool) (r : ClampedRange)
    (hr : r = clampCalendarRange startQ endQ now maxPastDays maxFutureDays defaultThisWeek) :
    r.min = startOfUTCDay (now - maxPastDays * dayMs)
  ∧ r.max = endOfUTCDayMs (now + maxFutureDays * dayMs)
  ∧ r.min ≤ r.max
  ∧ ((startQ = none ∨ endQ = none) →
        (∃ s e, r.start = some s ∧ r.stop = some e
           ∧ r.min ≤ s ∧ s ≤ e ∧ e ≤ r.max)
      ∧ (defaultThisWeek = true →
            r.start = some (max r.min (weekBounds now).1)
          ∧ r.stop = some (max (max r.min (weekBounds now).1)
              (min r.max (weekBounds now).2)))
      ∧ (defaultThisWeek = false → r.start = some r.min ∧ r.stop = some r.max))
  ∧ (∀ a b, startQ = some a → endQ = some b →
        (a = none → r.start = none)
      ∧ (b = none → r.stop = none)
      ∧ (∀ s, a = some s → r.start = some (max r.min s))
      ∧ (∀ s e, a = some s → b = some e →
            r.stop = some (max (max r.min s) (min r.max e))
          ∧ r.min ≤ max r.min s
          ∧ max r.min s ≤ max (max r.min s) (min r.max e)
          ∧ (s ≤ r.max → max (max r.min s) (min r.max e) ≤ r.max)
          ∧ (r.max < s → r.start = some s ∧ r.stop = some s))) := by
  have hb := ccr_bounds now maxPastDays maxFutureDays
  have hmm : startOfUTCDay (now - maxPastDays * dayMs)
      ≤ endOfUTCDayMs (now + maxFutureDays * dayMs) := le_trans hb.1 hb.2
  have hweek := weekBounds_start_le now
  rcases hq : startQ with _ | a
  · rcases defaultThisWeek with _ | _
    · rw [hq, ccr_eq_default_minmax _ endQ (Or.inl rfl)] at hr
      subst hr
      refine ⟨rfl, rfl, hmm, ?_, ?_⟩
      · intro _
        refine ⟨⟨_, _, rfl, rfl, le_refl _, hmm, le_refl _⟩, ?_, ?_⟩
        · intro h
          cases h
        · intro _
          exact ⟨rfl, rfl⟩
      · intro a b hs
        cases hs
    · rw [hq, ccr_eq_default_week _ endQ (Or.inl rfl)] at hr
      subst hr
      refine ⟨rfl, rfl, hmm, ?_, ?_⟩
      · intro _
        refine ⟨⟨_, _, rfl, rfl, le_max_left _ _, le_max_left _ _,
          max_le (max_le hmm (le_trans hweek hb.2)) (min_le_left _ _)⟩, ?_, ?_⟩
        · intro _
          exact ⟨rfl, rfl⟩
        · intro h
          cases h
      · intro a b hs
        cases hs
  · rcases hq2 : endQ with _ | b
    · rcases defaultThisWeek with _ | _
      · rw [hq, hq2, ccr_eq_default_minmax _ _ (Or.inr rfl)] at hr
        subst hr
        refine ⟨rfl, rfl, hmm, ?_, ?_⟩
        · intro _
          refine ⟨⟨_, _, rfl, rfl, le_refl _, hmm, le_refl _⟩, ?_, ?_⟩
          · intro h
            cases h
          · intro _
            exact ⟨rfl, rfl⟩
        · intro a2 b2 _ he
          cases he
      · rw [hq, hq2, ccr_eq_default_week _ _ (Or.inr rfl)] at hr
        subst hr
        refine ⟨rfl, rfl, hmm, ?_, ?_⟩
        · intro _
          refine ⟨⟨_, _, rfl, rfl, le_max_left _ _, le_max_left _ _,
            max_le (max_le hmm (le_trans hweek hb.2)) (min_le_left _ _)⟩, ?_, ?_⟩
          · intro _
            exact ⟨rfl, rfl⟩
          · intro h
            cases h
        · intro a2 b2 _ he
          cases he
    · rcases a with _ | s
      · rcases b with _ | e
        · rw [hq, hq2, ccr_eq_both_invalid] at hr
          subst hr
          refine ⟨rfl, rfl, hmm, fun h => by rcases h with h | h <;> simp_all, ?_⟩
          intro a2 b2 ha2 hb2
          injection ha2 with ha2
          injection hb2 with hb2
          subst ha2
          subst hb2
          refine ⟨fun _ => rfl, fun _ => rfl, ?_, ?_⟩
          · intro s hs
            cases hs
          · intro s e hs
            cases hs
        · rw [hq, hq2, ccr_eq_start_invalid] at hr
          subst hr
          refine ⟨rfl, rfl, hmm, fun h => by rcases h with h | h <;> simp_all, ?_⟩
          intro a2 b2 ha2 hb2
          injection ha2 with ha2
          injection hb2 with hb2
          subst ha2
          subst hb2
          refine ⟨fun _ => rfl, fun hb3 => ?_, ?_, ?_⟩
          · cases hb3
          · intro s hs
            cases hs
          · intro s e2 hs
            cases hs
      · rcases b with _ | e
        · rw [hq, hq2, ccr_eq_end_invalid] at hr
          subst hr
          refine ⟨rfl, rfl, hmm, fun h => by rcases h with h | h <;> simp_all, ?_⟩
          intro a2 b2 ha2 hb2
          injection ha2 with ha2
          injection hb2 with hb2
          subst ha2
          subst hb2
          refine ⟨fun hs => ?_, fun _ => rfl, ?_, ?_⟩
          · cases hs
          · intro s2 hs2
            injection hs2 with hs2
            subst hs2
            rfl
          · intro s2 e2 _ he2
            cases he2
        · rw [hq, hq2, ccr_eq_both] at hr
          subst hr
          refine ⟨rfl, rfl, hmm, fun h => by rcases h with h | h <;> simp_all, ?_⟩
          intro a2 b2 ha2 hb2
          injection ha2 with ha2
          injection hb2 with hb2
          subst ha2
          subst hb2
          refine ⟨fun hs => ?_, fun he => ?_, ?_, ?_⟩
          · cases hs
          · cases he
          · intro s2 hs2
            injection hs2 with hs2
            subst hs2
            rfl
          · intro s2 e2 hs2 he2
            injection hs2 with hs2
            injection he2 with he2
            subst hs2
            subst he2
            dsimp only
            refine ⟨rfl, le_max_left _ _, le_max_left _ _, ?_, ?_⟩
            · intro hle
              exact max_le (max_le hmm hle) (min_le_left _ _)
            · intro hgt
              have h1 : max (startOfUTCDay (now - maxPastDays * dayMs)) s = s :=
                max_eq_right (by omega)
              rw [h1]
              refine ⟨rfl, ?_⟩
              rw [max_eq_left (le_trans (min_le_left _ _) (by omega))]

/-- Witness for `clampCalendarRange_claim_amended` at concrete inputs
(no requested bounds, `defaultThisWeek` off): the result takes the valid
`[min, max]` defaults. -/
theorem clampCalendarRange_claim_amended_witness :
    (clampCalendarRange none none 0 0 7 false).start
      = some (clampCalendarRange none none 0 0 7 false).min :=
  (((clampCalendarRange_claim_amended none none 0 0 7 false _ rfl).2.2.2.1
    (Or.inl rfl)).2.2 rfl).1

/-! ## Authenticator (`src/src/auth.ts`)

The Node `crypto` HMAC-SHA256 and the base64url/JSON payload codec are
external collaborators: they enter the model as function parameters
(`hmac`, `penc`, `pdec`), constrained only by the facts the code relies
on (the codec round-trips on the issued payload, and base64url output
never contains a dot).  The replay-marker directory is modelled as an
association list from jti to the stored expiry, plus the module-level
`lastSweepMs` timestamp; a process restart keeps the directory and
resets `lastSweepMs`. -/

structure Claims where
  sub : String
  iat : Nat
  exp : Nat
  jti : String
  aud : String
  deriving DecidableEq

structure AuthConfig where
  apiKey : String
  tokenSigningKey : String
  previousTokenSigningKey : String
  tokenTtlSeconds : Nat
  deriving DecidableEq

structure HeadersM where
  xApiKey : Option String
  xAgentKey : Option String
  authorization : Option String
  deriving DecidableEq

/-- JS `a || b` on nullable strings (the empty string is falsy). -/
def jsOrStr (a b : Option String) : Option String :=
  match a with
  | some s => if s = "" then b else some s
  | none => b

/-- JS `String.prototype.startsWith`. -/
def jsStartsWith (s pre : String) : Bool := s.data.take pre.data.length = pre.data

/-- JS `String.prototype.slice(n)` for a non-negative index. -/
def jsDropChars (s : String) (n : Nat) : String := ⟨s.data.drop n⟩

/-- Embedding of `safeEqualText` from `src/src/auth.ts`: length check first, then
`crypto.timingSafeEqual` on equal-length buffers — total for all inputs. -/
def safeEqualText (left right : String) : Bool :=
  if left.utf8ByteSize ≠ right.utf8ByteSize then false
  else left == right

/-- Embedding of `isSafeJti`: the regex `^[a-f0-9-]\x7b16,64\x7d$` with the `i` flag. -/
def isSafeJti (jti : String) : Bool :=
  16 ≤ jti.length ∧ jti.length ≤ 64 ∧
    jti.data.all (fun c =>
      ('a' ≤ c ∧ c ≤ 'f') ∨ ('A' ≤ c ∧ c ≤ 'F') ∨ ('0' ≤ c ∧ c ≤ '9') ∨ c = '-')

/-- Embedding of `verify` from `src/src/auth.ts`.  `now` is in seconds.  A payload the
JSON parser rejects is `pdec = none` (the `catch` path); JS falsy checks
on the numeric claims reject `0`/missing values. -/
def verify (hmac : String → String → String) (pdec : String → Option Claims)
    (token key : String) (now : Nat) : Option Claims :=
  let parts := jsSplit '.' token
  if parts.length ≠ 3 then none
  else
    let h := parts.getD 0 ""
    let p := parts.getD 1 ""
    let s := parts.getD 2 ""
    let expected := hmac key (h ++ "." ++ p)
    if ¬ safeEqualText s expected then none
    else
      match pdec p with
      | none => none
      | some claims =>
        if claims.exp = 0 ∨ claims.exp < now then none
        else if claims.iat = 0 ∨ now + 10 < claims.iat then none
        else if claims.jti = "" ∨ claims.aud ≠ "secure-wrapper" then none
        else if claims.sub = "" then none
        else if ¬ isSafeJti claims.jti then none
        else some claims

/-- The replay store: marker files keyed by jti holding `\x7bexp\x7d`, plus
the in-process sweep throttle. -/
structure ReplayState where
  markers : List (String × Nat)
  lastSweepMs : Nat
  deriving DecidableEq

/-- Embedding of `sweepExpiredReplayMarkers`: at most once per 60 s, drop every marker
whose expiry is missing (0) or in the past. -/
def sweepExpiredReplayMarkers (nowSec nowMs : Nat) (st : ReplayState) : ReplayState :=
  if nowMs - st.lastSweepMs < 60000 then st
  else
    { markers := st.markers.filter (fun m => ¬ (m.2 = 0 ∨ m.2 < nowSec)),
      lastSweepMs := nowMs }

/-- Embedding of `checkAndMarkReplay`: refuse expired tokens, sweep, then install the
marker by exclusive-create — failing if it already exists. -/
def checkAndMarkReplay (jti : String) (exp : Nat) (nowMs : Nat) (st : ReplayState) :
    Bool × ReplayState :=
  let now := nowMs / 1000
  if exp < now then (false, st)
  else
    let st1 := sweepExpiredReplayMarkers now nowMs st
    match st1.markers.lookup jti with
    | some _ => (false, st1)
    | none => (true, { st1 with markers := (jti, exp) :: st1.markers })

inductive AuthResult where
  | ok : String → AuthResult
  | deny : String → AuthResult
  deriving DecidableEq

def headerJson : String := "\x7b\"alg\":\"HS256\",\"typ\":\"JWT\"\x7d"

def b64urlAlphabet : List Char :=
  "ABCDEFGHIJKLMNOPQRSTUVWXYZabcdefghijklmnopqrstuvwxyz0123456789-_".data

/-- Unpadded base64url of a byte list (Node `toString('base64url')`). -/
def b64urlEncodeBytes : List Nat → List Char
  | b1 :: b2 :: b3 :: rest =>
    b64urlAlphabet.getD (b1 / 4) 'A' :: b64urlAlphabet.getD ((b1 % 4) * 16 + b2 / 16) 'A' ::
      b64urlAlphabet.getD ((b2 % 16) * 4 + b3 / 64) 'A' :: b64urlAlphabet.getD (b3 % 64) 'A' ::
      b64urlEncodeBytes rest
  | [b1, b2] =>
    [b64urlAlphabet.getD (b1 / 4) 'A', b64urlAlphabet.getD ((b1 % 4) * 16 + b2 / 16) 'A',
      b64urlAlphabet.getD ((b2 % 16) * 4) 'A']
  | [b1] => [b64urlAlphabet.getD (b1 / 4) 'A', b64urlAlphabet.getD ((b1 % 4) * 16) 'A']
  | [] => []

/-- UTF-8 encoding of one scalar value, as byte values. -/
def utf8Bytes (c : Char) : List Nat :=
  let n := c.toNat
  if n < 128 then [n]
  else if n < 2048 then [192 + n / 64, 128 + n % 64]
  else if n < 65536 then [224 + n / 4096, 128 + (n / 64) % 64, 128 + n % 64]
  else [240 + n / 262144, 128 + (n / 4096) % 64, 128 + (n / 64) % 64, 128 + n % 64]

def b64url (s : String) : String :=
  ⟨b64urlEncodeBytes (s.data.flatMap utf8Bytes)⟩

/-- Embedding of `issueSignedToken` from `src/src/auth.ts`.  `penc` models
`b64url(JSON.stringify(payload))`; `jti` stands for the freshly generated
`crypto.randomUUID()`; `now` is the issue time in seconds. -/
def issueSignedToken (hmac : String → String → String) (penc : Claims → String)
    (subject jti : String) (cfg : AuthConfig) (now : Nat) : String :=
  let header := b64url headerJson
  let payload := penc
    { sub := subject, iat := now, exp := now + cfg.tokenTtlSeconds,
      jti := jti, aud := "secure-wrapper" }
  let sig := hmac cfg.tokenSigningKey (header ++ "." ++ payload)
  header ++ "." ++ payload ++ "." ++ sig

/-- Embedding of `authenticate` from `src/src/auth.ts`. -/
def authenticate (hmac : String → String → String) (pdec : String → Option Claims)
    (headers : HeadersM) (cfg : AuthConfig) (nowMs : Nat) (st : ReplayState) :
    AuthResult × ReplayState :=
  let apiOk : Bool :=
    match jsOrStr headers.xApiKey headers.xAgentKey with
    | some k => (¬ k = "") && safeEqualText k cfg.apiKey
    | none => false
  if apiOk then (.ok "api-key", st)
  else
    let auth := headers.authorization.getD ""
    if ¬ jsStartsWith auth "Bearer " then (.deny "missing_credentials", st)
    else
      let token := jsDropChars auth 7
      let keys := [cfg.tokenSigningKey, cfg.previousTokenSigningKey].filter (fun k => k ≠ "")
      match keys.findSome? (fun k => verify hmac pdec token k (nowMs / 1000)) with
      | none => (.deny "invalid_token", st)
      | some claims =>
        let r := checkAndMarkReplay claims.jti claims.exp nowMs st
        if r.1 then (.ok claims.sub, r.2)
        else (.deny "replay_detected", r.2)

/-- A process history acting on the replay store: `authenticate` calls at
given times, and restarts, which keep the marker directory but reset the
in-memory sweep throttle. -/
inductive WrapperEvent where
  | call : HeadersM → Nat → WrapperEvent
  | restart : WrapperEvent

def runEvents (hmac : String → String → String) (pdec : String → Option Claims)
    (cfg : AuthConfig) : List WrapperEvent → ReplayState → ReplayState
  | [], st => st
  | .call h t :: es, st => runEvents hmac pdec cfg es (authenticate hmac pdec h cfg t st).2
  | .restart :: es, st => runEvents hmac pdec cfg es ⟨st.markers, 0⟩

theorem safeEqualText_iff (l r : String) : safeEqualText l r = true ↔ l = r := by
  unfold safeEqualText
  by_cases h : l.utf8ByteSize ≠ r.utf8ByteSize
  · simp only [if_pos h]
    constructor
    · intro hf
      cases hf
    · intro he
      exact absurd (congrArg String.utf8ByteSize he) h
  · simp only [if_neg h]
    exact beq_iff_eq

theorem jsSplit_token (h p sgn : String)
    (hh : '.' ∉ h.data) (hp : '.' ∉ p.data) (hs : '.' ∉ sgn.data) :
    jsSplit '.' (h ++ "." ++ p ++ "." ++ sgn) = [h, p, sgn] := by
  have hdata : (h ++ "." ++ p ++ "." ++ sgn).data
      = h.data ++ '.' :: (p.data ++ '.' :: sgn.data) := by
    simp [String.data_append]
  unfold jsSplit
  rw [hdata, jsSplitChar_append_sep _ hh, jsSplitChar_append_sep _ hp,
    jsSplitChar_no_sep hs]
  rfl

theorem lookup_filter_some {l : List (String × Nat)} {a : String} {b : Nat}
    {P : String × Nat → Bool} (hl : l.lookup a = some b) (hP : P (a, b) = true) :
    (l.filter P).lookup a = some b := by
  induction l with
  | nil => cases hl
  | cons hd tl ih =>
    obtain ⟨k, v⟩ := hd
    by_cases hk : a = k
    · subst hk
      rw [List.lookup_cons_self] at hl
      injection hl with hl
      subst hl
      rw [List.filter_cons_of_pos hP]
      exact List.lookup_cons_self
    · have hbeq : (a == k) = false := beq_false_of_ne hk
      rw [List.lookup_cons, hbeq] at hl
      by_cases hkeep : P (k, v) = true
      · rw [List.filter_cons_of_pos hkeep, List.lookup_cons, hbeq]
        exact ih hl
      · rw [List.filter_cons_of_neg (by simpa using hkeep)]
        exact ih hl

theorem lookup_filter_none {l : List (String × Nat)} {a : String}
    {P : String × Nat → Bool} (hl : l.lookup a = none) :
    (l.filter P).lookup a = none := by
  induction l with
  | nil => rfl
  | cons hd tl ih =>
    obtain ⟨k, v⟩ := hd
    by_cases hk : a = k
    · subst hk
      rw [List.lookup_cons_self] at hl
      cases hl
    · have hbeq : (a == k) = false := beq_false_of_ne hk
      rw [List.lookup_cons, hbeq] at hl
      by_cases hkeep : P (k, v) = true
      · rw [List.filter_cons_of_pos hkeep, List.lookup_cons, hbeq]
        exact ih hl
      · rw [List.filter_cons_of_neg (by simpa using hkeep)]
        exact ih hl

theorem sweep_lookup_some {nowSec : Nat} (nowMs : Nat) {st : ReplayState} {jti : String}
    {exp : Nat} (h : st.markers.lookup jti = some exp) (h0 : exp ≠ 0)
    (hle : nowSec ≤ exp) :
    (sweepExpiredReplayMarkers nowSec nowMs st).markers.lookup jti = some exp := by
  unfold sweepExpiredReplayMarkers
  split
  · exact h
  · exact lookup_filter_some h (by simp; omega)

theorem sweep_lookup_none (nowSec nowMs : Nat) {st : ReplayState} {jti : String}
    (h : st.markers.lookup jti = none) :
    (sweepExpiredReplayMarkers nowSec nowMs st).markers.lookup jti = none := by
  unfold sweepExpiredReplayMarkers
  split
  · exact h
  · exact lookup_filter_none h

theorem checkAndMark_existing {jti : String} (exp : Nat) {e : Nat} (nowMs : Nat) {st : ReplayState}
    (h : st.markers.lookup jti = some e) (h0 : e ≠ 0) (hle : nowMs / 1000 ≤ e) :
    (checkAndMarkReplay jti exp nowMs st).1 = false
      ∧ ((checkAndMarkReplay jti exp nowMs st).2).markers.lookup jti = some e := by
  simp only [checkAndMarkReplay]
  split
  · exact ⟨rfl, h⟩
  · have hs := sweep_lookup_some nowMs h h0 hle
    rw [hs]
    exact ⟨rfl, hs⟩

theorem checkAndMark_fresh {jti : String} (exp nowMs : Nat) {st : ReplayState}
    (h : st.markers.lookup jti = none) (hexp : ¬ exp < nowMs / 1000) :
    (checkAndMarkReplay jti exp nowMs st).1 = true
      ∧ ((checkAndMarkReplay jti exp nowMs st).2).markers.lookup jti = some exp := by
  simp only [checkAndMarkReplay]
  rw [if_neg hexp]
  have hs := sweep_lookup_none (nowMs / 1000) nowMs h
  rw [hs]
  exact ⟨rfl, List.lookup_cons_self⟩

theorem checkAndMark_preserves {jti2 : String} {exp2 nowMs : Nat} {st : ReplayState}
    {jti : String} {exp : Nat} (h : st.markers.lookup jti = some exp) (h0 : exp ≠ 0)
    (hle : nowMs / 1000 ≤ exp) :
    ((checkAndMarkReplay jti2 exp2 nowMs st).2).markers.lookup jti = some exp := by
  simp only [checkAndMarkReplay]
  split
  · exact h
  · have hs := sweep_lookup_some nowMs h h0 hle
    cases h2 : (sweepExpiredReplayMarkers (nowMs / 1000) nowMs st).markers.lookup jti2 with
    | some e2 => exact hs
    | none =>
      have hne : ¬ jti = jti2 := fun he => by rw [he, h2] at hs; cases hs
      rw [List.lookup_cons, beq_false_of_ne hne]
      exact hs

theorem authenticate_preserves (hmac : String → String → String)
    (pdec : String → Option Claims) (headers : HeadersM) (cfg : AuthConfig)
    (nowMs : Nat) (st : ReplayState) {jti : String} {exp : Nat}
    (h : st.markers.lookup jti = some exp) (h0 : exp ≠ 0)
    (hle : nowMs / 1000 ≤ exp) :
    ((authenticate hmac pdec headers cfg nowMs st).2).markers.lookup jti = some exp := by
  simp only [authenticate]
  repeat' split
  all_goals
    first
      | exact h
      | exact checkAndMark_preserves h h0 hle

theorem runEvents_preserves (hmac : String → String → String)
    (pdec : String → Option Claims) (cfg : AuthConfig) (events : List WrapperEvent)
    {jti : String} {exp : Nat}
    (hev : ∀ h t, WrapperEvent.call h t ∈ events → t / 1000 ≤ exp) (h0 : exp ≠ 0) :
    ∀ st : ReplayState, st.markers.lookup jti = some exp →
      (runEvents hmac pdec cfg events st).markers.lookup jti = some exp := by
  induction events with
  | nil => intro st h; exact h
  | cons e es ih =>
    intro st h
    cases e with
    | call hd t =>
      exact ih (fun h2 t2 hm => hev h2 t2 (List.mem_cons_of_mem _ hm)) _
        (authenticate_preserves hmac pdec hd cfg t st h h0
          (hev hd t (List.mem_cons_self _ _)))
    | restart =>
      exact ih (fun h2 t2 hm => hev h2 t2 (List.mem_cons_of_mem _ hm)) _ h

/-- The payload record built by `issueSignedToken`. -/
def issuedClaims (subject jti : String) (cfg : AuthConfig) (now : Nat) : Claims :=
  { sub := subject, iat := now, exp := now + cfg.tokenTtlSeconds,
    jti := jti, aud := "secure-wrapper" }

theorem headerB64_no_dot : '.' ∉ (b64url headerJson).data := by decide

theorem safeEqualText_refl (s : String) : safeEqualText s s = true := by
  simp [safeEqualText]

theorem isSafeJti_ne_empty {j : String} (h : isSafeJti j = true) : j ≠ "" := by
  intro he
  subst he
  simp [isSafeJti] at h

theorem jsStartsWith_append (pre t : String) : jsStartsWith (pre ++ t) pre = true := by
  simp [jsStartsWith, String.data_append, List.take_left]

theorem jsDropChars_bearer (t : String) :
    jsDropChars ("Bearer " ++ t) 7 = t := by
  have h7 : ("Bearer " : String).data.length = 7 := by decide
  show (⟨(("Bearer " ++ t).data).drop 7⟩ : String) = t
  rw [String.data_append, ← h7, List.drop_left]

theorem verify_issue
    (hmac : String → String → String) (penc : Claims → String)
    (pdec : String → Option Claims) (subject jti : String) (cfg : AuthConfig)
    (issueSec nowSec : Nat)
    (hrt : pdec (penc (issuedClaims subject jti cfg issueSec))
      = some (issuedClaims subject jti cfg issueSec))
    (hpd : '.' ∉ (penc (issuedClaims subject jti cfg issueSec)).data)
    (hsd : '.' ∉ (hmac cfg.tokenSigningKey
        (b64url headerJson ++ "." ++ penc (issuedClaims subject jti cfg issueSec))).data)
    (hsub : subject ≠ "") (hjti : isSafeJti jti = true)
    (hiss : 0 < issueSec) (h1 : issueSec ≤ nowSec + 10)
    (h2 : nowSec ≤ issueSec + cfg.tokenTtlSeconds) :
    verify hmac pdec (issueSignedToken hmac penc subject jti cfg issueSec)
      cfg.tokenSigningKey nowSec = some (issuedClaims subject jti cfg issueSec) := by
  have hjne := isSafeJti_ne_empty hjti
  simp only [issuedClaims] at hrt hpd hsd ⊢
  simp only [issueSignedToken, verify]
  rw [jsSplit_token _ _ _ headerB64_no_dot hpd hsd]
  rw [if_neg (by simp)]
  simp only [List.getD_cons_zero, List.getD_cons_succ]
  rw [if_neg (by simp [safeEqualText_refl]), hrt]
  dsimp only
  have e1 : ¬ (issueSec + cfg.tokenTtlSeconds = 0 ∨ issueSec + cfg.tokenTtlSeconds < nowSec) := by
    omega
  have e2 : ¬ (issueSec = 0 ∨ nowSec + 10 < issueSec) := by omega
  simp [e1, e2, hjne, hsub, hjti]
  omega

theorem authenticate_bearer_eval (hmac : String → String → String)
    (pdec : String → Option Claims) (headers : HeadersM) (token : String)
    (cfg : AuthConfig) (nowMs : Nat) (st : ReplayState) (c : Claims)
    (hapi : (match jsOrStr headers.xApiKey headers.xAgentKey with
             | some k => (¬ k = "") && safeEqualText k cfg.apiKey
             | none => false) = false)
    (hauth : headers.authorization = some ("Bearer " ++ token))
    (hver : verify hmac pdec token cfg.tokenSigningKey (nowMs / 1000) = some c)
    (hkey : cfg.tokenSigningKey ≠ "") :
    authenticate hmac pdec headers cfg nowMs st
      = (if (checkAndMarkReplay c.jti c.exp nowMs st).1
          then (.ok c.sub, (checkAndMarkReplay c.jti c.exp nowMs st).2)
          else (.deny "replay_detected", (checkAndMarkReplay c.jti c.exp nowMs st).2)) := by
  simp only [authenticate, hauth]
  rw [hapi]
  simp only [Bool.false_eq_true, if_false, Option.getD_some]
  rw [if_neg (by simp [jsStartsWith_append])]
  rw [jsDropChars_bearer]
  rw [List.filter_cons_of_pos (by simp [hkey])]
  rw [List.findSome?_cons]
  rw [hver]

theorem authenticate_issued_first (hmac : String → String → String)
    (penc : Claims → String) (pdec : String → Option Claims)
    (headers : HeadersM) (subject jti : String) (cfg : AuthConfig)
    (issueSec nowMs : Nat) (st : ReplayState)
    (hapi : (match jsOrStr headers.xApiKey headers.xAgentKey with
             | some k => (¬ k = "") && safeEqualText k cfg.apiKey
             | none => false) = false)
    (hauth : headers.authorization
      = some ("Bearer " ++ issueSignedToken hmac penc subject jti cfg issueSec))
    (hrt : pdec (penc (issuedClaims subject jti cfg issueSec))
      = some (issuedClaims subject jti cfg issueSec))
    (hpd : '.' ∉ (penc (issuedClaims subject jti cfg issueSec)).data)
    (hsd : '.' ∉ (hmac cfg.tokenSigningKey
        (b64url headerJson ++ "." ++ penc (issuedClaims subject jti cfg issueSec))).data)
    (hsub : subject ≠ "") (hjti : isSafeJti jti = true)
    (hiss : 0 < issueSec) (hkey : cfg.tokenSigningKey ≠ "")
    (hfresh : st.markers.lookup jti = none)
    (h1 : issueSec ≤ nowMs / 1000 + 10)
    (h2 : nowMs / 1000 ≤ issueSec + cfg.tokenTtlSeconds) :
    (authenticate hmac pdec headers cfg nowMs st).1 = .ok subject
      ∧ ((authenticate hmac pdec headers cfg nowMs st).2).markers.lookup jti
          = some (issueSec + cfg.tokenTtlSeconds) := by
  have hver := verify_issue hmac penc pdec subject jti cfg issueSec (nowMs / 1000)
    hrt hpd hsd hsub hjti hiss h1 h2
  rw [authenticate_bearer_eval hmac pdec headers _ cfg nowMs st _ hapi hauth hver hkey]
  have hcm := checkAndMark_fresh ((issuedClaims subject jti cfg issueSec).exp)
    nowMs hfresh (by simp only [issuedClaims]; omega)
  dsimp only [issuedClaims] at hcm ⊢
  rw [hcm.1]
  exact ⟨rfl, hcm.2⟩

theorem authenticate_issued_replayed (hmac : String → String → String)
    (penc : Claims → String) (pdec : String → Option Claims)
    (headers : HeadersM) (subject jti : String) (cfg : AuthConfig)
    (issueSec nowMs : Nat) (st : ReplayState) (e : Nat)
    (hapi : (match jsOrStr headers.xApiKey headers.xAgentKey with
             | some k => (¬ k = "") && safeEqualText k cfg.apiKey
             | none => false) = false)
    (hauth : headers.authorization
      = some ("Bearer " ++ issueSignedToken hmac penc subject jti cfg issueSec))
    (hrt : pdec (penc (issuedClaims subject jti cfg issueSec))
      = some (issuedClaims subject jti cfg issueSec))
    (hpd : '.' ∉ (penc (issuedClaims subject jti cfg issueSec)).data)
    (hsd : '.' ∉ (hmac cfg.tokenSigningKey
        (b64url headerJson ++ "." ++ penc (issuedClaims subject jti cfg issueSec))).data)
    (hsub : subject ≠ "") (hjti : isSafeJti jti = true)
    (hiss : 0 < issueSec) (hkey : cfg.tokenSigningKey ≠ "")
    (hmark : st.markers.lookup jti = some e) (he0 : e ≠ 0)
    (hele : nowMs / 1000 ≤ e)
    (h1 : issueSec ≤ nowMs / 1000 + 10)
    (h2 : nowMs / 1000 ≤ issueSec + cfg.tokenTtlSeconds) :
    (authenticate hmac pdec headers cfg nowMs st).1 = .deny "replay_detected" := by
  have hver := verify_issue hmac penc pdec subject jti cfg issueSec (nowMs / 1000)
    hrt hpd hsd hsub hjti hiss h1 h2
  rw [authenticate_bearer_eval hmac pdec headers _ cfg nowMs st _ hapi hauth hver hkey]
  have hcm := checkAndMark_existing ((issuedClaims subject jti cfg issueSec).exp)
    nowMs hmark he0 hele
  dsimp only [issuedClaims] at hcm ⊢
  rw [hcm.1]
  rfl

/-- C1: for a configuration with a non-empty signing key and a token issued
by `issueSignedToken` for a (non-empty, per the data model) subject with a
fresh UUID jti, the first Bearer presentation within the TTL authenticates
as the subject; after any further calls and restarts within the TTL
(restarts keep the marker directory), presenting the same token again
yields `replay_detected`. -/
theorem token_single_use_claim
    (hmac : String → String → String) (penc : Claims → String)
    (pdec : String → Option Claims) (subject jti : String) (cfg : AuthConfig)
    (issueSec : Nat) (st0 : ReplayState)
    (hrt : pdec (penc (issuedClaims subject jti cfg issueSec))
      = some (issuedClaims subject jti cfg issueSec))
    (hpd : '.' ∉ (penc (issuedClaims subject jti cfg issueSec)).data)
    (hsd : '.' ∉ (hmac cfg.tokenSigningKey
        (b64url headerJson ++ "." ++ penc (issuedClaims subject jti cfg issueSec))).data)
    (hsub : subject ≠ "") (hjti : isSafeJti jti = true)
    (hiss : 0 < issueSec) (hkey : cfg.tokenSigningKey ≠ "")
    (hfresh : st0.markers.lookup jti = none)
    (t1 : Nat) (h1a : issueSec ≤ t1 / 1000) (h1b : t1 / 1000 ≤ issueSec + cfg.tokenTtlSeconds)
    (events : List WrapperEvent)
    (hev : ∀ h t, WrapperEvent.call h t ∈ events → t / 1000 ≤ issueSec + cfg.tokenTtlSeconds)
    (t2 : Nat) (h2a : issueSec ≤ t2 / 1000) (h2b : t2 / 1000 ≤ issueSec + cfg.tokenTtlSeconds) :
    (authenticate hmac pdec
        ⟨none, none, some ("Bearer " ++ issueSignedToken hmac penc subject jti cfg issueSec)⟩
        cfg t1 st0).1 = .ok subject
    ∧ (authenticate hmac pdec
        ⟨none, none, some ("Bearer " ++ issueSignedToken hmac penc subject jti cfg issueSec)⟩
        cfg t2 (runEvents hmac pdec cfg events
          (authenticate hmac pdec
            ⟨none, none, some ("Bearer " ++ issueSignedToken hmac penc subject jti cfg issueSec)⟩
            cfg t1 st0).2)).1 = .deny "replay_detected" := by
  have hapi : (match jsOrStr (none : Option String) (none : Option String) with
      | some k => (¬ k = "") && safeEqualText k cfg.apiKey
      | none => false) = false := rfl
  have hfirst := authenticate_issued_first hmac penc pdec
    ⟨none, none, some ("Bearer " ++ issueSignedToken hmac penc subject jti cfg issueSec)⟩
    subject jti cfg issueSec t1 st0 hapi rfl hrt hpd hsd hsub hjti hiss hkey hfresh
    (by omega) h1b
  refine ⟨hfirst.1, ?_⟩
  have hrun := runEvents_preserves hmac pdec cfg events hev (by omega) _ hfirst.2
  exact authenticate_issued_replayed hmac penc pdec
    ⟨none, none, some ("Bearer " ++ issueSignedToken hmac penc subject jti cfg issueSec)⟩
    subject jti cfg issueSec t2 _ _ hapi rfl hrt hpd hsd hsub hjti hiss hkey hrun
    (by omega) h2b (by omega) h2b

def cfgW : AuthConfig := ⟨"k123", "sigkey", "", 120⟩

def jtiW : String := "0123456789abcdef0123456789abcdef"

def claimsW : Claims := issuedClaims "agent-1" jtiW cfgW 1000

def hmacW : String → String → String := fun _ _ => "SIG"

def pencW : Claims → String := fun _ => "PAYLOAD"

def pdecW : String → Option Claims := fun s => if s = "PAYLOAD" then some claimsW else none

/-- Witness for `token_single_use_claim`: a concrete token, first use at
t = 1000.5 s authenticates, reuse at t = 1100 s after a restart is
`replay_detected`. -/
theorem token_single_use_claim_witness :
    (authenticate hmacW pdecW
        ⟨none, none, some ("Bearer " ++ issueSignedToken hmacW pencW "agent-1" jtiW cfgW 1000)⟩
        cfgW 1000500 ⟨[], 0⟩).1 = .ok "agent-1"
    ∧ (authenticate hmacW pdecW
        ⟨none, none, some ("Bearer " ++ issueSignedToken hmacW pencW "agent-1" jtiW cfgW 1000)⟩
        cfgW 1100000 (runEvents hmacW pdecW cfgW [.restart]
          (authenticate hmacW pdecW
            ⟨none, none, some ("Bearer " ++ issueSignedToken hmacW pencW "agent-1" jtiW cfgW 1000)⟩
            cfgW 1000500 ⟨[], 0⟩).2)).1 = .deny "replay_detected" :=
  token_single_use_claim hmacW pencW pdecW "agent-1" jtiW cfgW 1000 ⟨[], 0⟩
    (by decide) (by decide) (by decide) (by decide) (by decide) (by decide) (by decide)
    rfl 1000500 (by decide) (by decide) [.restart]
    (by intro h t hm; simp at hm) 1100000 (by decide) (by decide)

def claimsC0 : Claims :=
  { sub := "agent", iat := 100, exp := 100, jti := "0123456789abcdef",
    aud := "secure-wrapper" }

def hmacC0 : String → String → String := fun _ _ => "S"

def pdecC0 : String → Option Claims := fun s => if s = "P" then some claimsC0 else none

/-- C2 (counterexample): the claim requires an accepted token's expiry to
be *in the future* (`exp > now`, as the spec invariant states); the code
only rejects `exp < now`, so a token whose expiry equals the current
second is still accepted. -/
theorem verify_claim_counterexample :
    verify hmacC0 pdecC0 "H.P.S" "k" 100 = some claimsC0
      ∧ ¬ (100 < claimsC0.exp) := by
  exact ⟨by decide, by decide⟩

/-- C2 (amended): token verification accepts only if the token splits on
`.` into exactly three parts, the supplied signature equals the HMAC of
`header.payload` under the key being tried (and `authenticate` tries
exactly the non-empty keys among current and previous), the decoded
expiry is nonzero and *not earlier than* now (`exp = now` is accepted),
issued-at is nonzero and at most 10 seconds in the future, the subject is
a non-empty string, the audience is `secure-wrapper`, and the jti matches
`[a-f0-9-]` of length 16–64 — so a token with an unsafe jti is denied
even with a valid signature. -/
theorem verify_claim_amended (hmac : String → String → String)
    (pdec : String → Option Claims) (token key : String) (now : Nat) (c : Claims)
    (h : verify hmac pdec token key now = some c) :
    ((jsSplit '.' token).length = 3
  ∧ safeEqualText ((jsSplit '.' token).getD 2 "")
      (hmac key (((jsSplit '.' token).getD 0 "") ++ "." ++ ((jsSplit '.' token).getD 1 ""))) = true
  ∧ pdec ((jsSplit '.' token).getD 1 "") = some c
  ∧ c.exp ≠ 0 ∧ now ≤ c.exp
  ∧ c.iat ≠ 0 ∧ c.iat ≤ now + 10
  ∧ c.sub ≠ ""
  ∧ c.aud = "secure-wrapper"
  ∧ isSafeJti c.jti = true)
  ∧ (∀ (headers : HeadersM) (cfg : AuthConfig) (nowMs : Nat) (st : ReplayState)
      (p : String) (st2 : ReplayState),
      authenticate hmac pdec headers cfg nowMs st = (.ok p, st2) → p ≠ "api-key" →
        ∃ k ∈ [cfg.tokenSigningKey, cfg.previousTokenSigningKey].filter (fun k => ¬ k = ""),
          ∃ c2, verify hmac pdec (jsDropChars (headers.authorization.getD "") 7) k
            (nowMs / 1000) = some c2 ∧ p = c2.sub) := by
  constructor
  · simp only [verify] at h
    by_cases hlen : (jsSplit '.' token).length ≠ 3
    · rw [if_pos hlen] at h
      cases h
    · rw [if_neg hlen] at h
      by_cases hsig : ¬ safeEqualText ((jsSplit '.' token).getD 2 "")
          (hmac key (((jsSplit '.' token).getD 0 "") ++ "." ++ ((jsSplit '.' token).getD 1 ""))) = true
      · rw [if_pos hsig] at h
        cases h
      · rw [if_neg hsig] at h
        cases hdec : pdec ((jsSplit '.' token).getD 1 "") with
        | none =>
          rw [hdec] at h
          cases h
        | some claims =>
          rw [hdec] at h
          dsimp only at h
          by_cases he : claims.exp = 0 ∨ claims.exp < now
          · rw [if_pos he] at h
            cases h
          · rw [if_neg he] at h
            by_cases hi : claims.iat = 0 ∨ now + 10 < claims.iat
            · rw [if_pos hi] at h
              cases h
            · rw [if_neg hi] at h
              by_cases hj : claims.jti = "" ∨ ¬ claims.aud = "secure-wrapper"
              · rw [if_pos hj] at h
                cases h
              · rw [if_neg hj] at h
                by_cases hs : claims.sub = ""
                · rw [if_pos hs] at h
                  cases h
                · rw [if_neg hs] at h
                  by_cases hq : ¬ isSafeJti claims.jti = true
                  · rw [if_pos hq] at h
                    cases h
                  · rw [if_neg hq] at h
                    injection h with h
                    subst h
                    push_neg at hj hq
                    refine ⟨by omega, not_not.mp hsig, rfl, by omega, by omega,
                      by omega, by omega, hs, hj.2, hq⟩
  · intro headers cfg nowMs st p st2 hok hp
    simp only [authenticate] at hok
    split at hok
    · have h1 := congrArg Prod.fst hok
      dsimp only at h1
      injection h1 with h2
      exact absurd h2.symm hp
    · split at hok
      · simp at hok
      · cases hfind : [cfg.tokenSigningKey, cfg.previousTokenSigningKey].filter
            (fun k => ¬ k = "") |>.findSome?
            (fun k => verify hmac pdec (jsDropChars (headers.authorization.getD "") 7) k
              (nowMs / 1000)) with
        | none =>
          rw [hfind] at hok
          simp at hok
        | some claims =>
          rw [hfind] at hok
          dsimp only at hok
          obtain ⟨k, hk, hv⟩ := List.exists_of_findSome?_eq_some hfind
          refine ⟨k, hk, claims, hv, ?_⟩
          split at hok
          · have h1 := congrArg Prod.fst hok
            dsimp only at h1
            injection h1 with h2
            exact h2.symm
          · have h1 := congrArg Prod.fst hok
            dsimp only at h1
            cases h1

/-- Witness for `verify_claim_amended` at a concrete accepted token. -/
theorem verify_claim_amended_witness :
    90 ≤ claimsC0.exp ∧ isSafeJti claimsC0.jti = true :=
  ⟨((verify_claim_amended hmacC0 pdecC0 "H.P.S" "k" 90 claimsC0 (by decide)).1).2.2.2.2.1,
   ((verify_claim_amended hmacC0 pdecC0 "H.P.S" "k" 90 claimsC0 (by decide)).1).2.2.2.2.2.2.2.2.2⟩

/-- C10: a present but wrong `x-api-key` does not by itself deny the
request: `safeEqualText` is a total comparison (true exactly on equal
strings, no length restriction), the mismatch falls through to the
bearer path, and a valid unused bearer token then authenticates with the
token subject as principal; a deny can only happen when the api-key mode
did not succeed. -/
theorem wrong_api_key_falls_through_claim
    (hmac : String → String → String) (penc : Claims → String)
    (pdec : String → Option Claims) (subject jti : String) (cfg : AuthConfig)
    (issueSec nowMs : Nat) (st : ReplayState) (apiKeyGuess : String)
    (hk1 : apiKeyGuess ≠ "") (hk2 : apiKeyGuess ≠ cfg.apiKey)
    (hrt : pdec (penc (issuedClaims subject jti cfg issueSec))
      = some (issuedClaims subject jti cfg issueSec))
    (hpd : '.' ∉ (penc (issuedClaims subject jti cfg issueSec)).data)
    (hsd : '.' ∉ (hmac cfg.tokenSigningKey
        (b64url headerJson ++ "." ++ penc (issuedClaims subject jti cfg issueSec))).data)
    (hsub : subject ≠ "") (hjti : isSafeJti jti = true)
    (hiss : 0 < issueSec) (hkey : cfg.tokenSigningKey ≠ "")
    (hfresh : st.markers.lookup jti = none)
    (h1 : issueSec ≤ nowMs / 1000) (h2 : nowMs / 1000 ≤ issueSec + cfg.tokenTtlSeconds) :
    (authenticate hmac pdec
        ⟨some apiKeyGuess, none,
          some ("Bearer " ++ issueSignedToken hmac penc subject jti cfg issueSec)⟩
        cfg nowMs st).1 = .ok subject
  ∧ (∀ l r : String, safeEqualText l r = true ↔ l = r)
  ∧ (∀ (headers : HeadersM) (cfg2 : AuthConfig) (t : Nat) (st2 : ReplayState)
      (reason : String),
      (authenticate hmac pdec headers cfg2 t st2).1 = .deny reason →
        (match jsOrStr headers.xApiKey headers.xAgentKey with
         | some k => ¬ (k ≠ "" ∧ safeEqualText k cfg2.apiKey = true)
         | none => True)) := by
  refine ⟨?_, safeEqualText_iff, ?_⟩
  · have hsafe : safeEqualText apiKeyGuess cfg.apiKey = false := by
      cases hsv : safeEqualText apiKeyGuess cfg.apiKey
      · rfl
      · exact absurd ((safeEqualText_iff _ _).mp hsv) hk2
    have hapi : (match jsOrStr (some apiKeyGuess) (none : Option String) with
        | some k => (¬ k = "") && safeEqualText k cfg.apiKey
        | none => false) = false := by
      simp [jsOrStr, hk1, hsafe]
    exact (authenticate_issued_first hmac penc pdec
      ⟨some apiKeyGuess, none,
        some ("Bearer " ++ issueSignedToken hmac penc subject jti cfg issueSec)⟩
      subject jti cfg issueSec nowMs st hapi rfl hrt hpd hsd hsub hjti hiss hkey hfresh
      (by omega) h2).1
  · intro headers cfg2 t st2 reason hden
    cases hj : jsOrStr headers.xApiKey headers.xAgentKey with
    | none => trivial
    | some k =>
      intro hc
      simp only [authenticate] at hden
      rw [hj] at hden
      dsimp only at hden
      rw [show ((¬ k = "") && safeEqualText k cfg2.apiKey) = true by
        simp [hc.1, hc.2]] at hden
      simp at hden

/-- Witness for `wrong_api_key_falls_through_claim` at concrete inputs. -/
theorem wrong_api_key_falls_through_claim_witness :
    (authenticate hmacW pdecW
        ⟨some "wrong-key", none,
          some ("Bearer " ++ issueSignedToken hmacW pencW "agent-1" jtiW cfgW 1000)⟩
        cfgW 1000500 ⟨[], 0⟩).1 = .ok "agent-1" :=
  (wrong_api_key_falls_through_claim hmacW pencW pdecW "agent-1" jtiW cfgW 1000 1000500
    ⟨[], 0⟩ "wrong-key" (by decide) (by decide) (by decide) (by decide) (by decide)
    (by decide) (by decide) (by decide) (by decide) rfl (by decide) (by decide)).1

/-! ## Send-quota counter (`src/rate-limit.ts`: `consumeSendQuota`)

The counter file is `Option Counter` (missing file ⇒ fresh default); the
current UTC hour/day keys are inputs (they come from the wall clock); the
exclusive file lock serializes calls, so a run of calls is a fold. -/

structure Counter where
  hourKey : String
  dayKey : String
  hourCount : Nat
  dayCount : Nat
  deriving DecidableEq

structure NowKeys where
  hourKey : String
  dayKey : String
  deriving DecidableEq

/-- Embedding of `load`: fresh default when the file is missing. -/
def load (nowKeys : NowKeys) (file : Option Counter) : Counter :=
  match file with
  | none =>
    { hourKey := nowKeys.hourKey, dayKey := nowKeys.dayKey, hourCount := 0, dayCount := 0 }
  | some c => c

/-- The hour/day rollover at the top of `consumeSendQuota`. -/
def rollover (nowKeys : NowKeys) (c : Counter) : Counter :=
  let c1 :=
    if c.hourKey ≠ nowKeys.hourKey then
      { c with hourKey := nowKeys.hourKey, hourCount := 0 }
    else c
  if c1.dayKey ≠ nowKeys.dayKey then
    { c1 with dayKey := nowKeys.dayKey, dayCount := 0 }
  else c1

structure QuotaResult where
  ok : Bool
  reason : Option String
  deriving DecidableEq

/-- Embedding of `consumeSendQuota` from `src/rate-limit.ts` (body under `withLock`);
returns the HTTP-level result and the counter file after the call — the
file is written only on success. -/
def consumeSendQuota (maxHour maxDay : Nat) (nowKeys : NowKeys)
    (file : Option Counter) : QuotaResult × Option Counter :=
  let c := rollover nowKeys (load nowKeys file)
  if maxHour ≤ c.hourCount then
    ({ ok := false, reason := some "hour_limit_exceeded" }, file)
  else if maxDay ≤ c.dayCount then
    ({ ok := false, reason := some "day_limit_exceeded" }, file)
  else
    ({ ok := true, reason := none },
      some { c with hourCount := c.hourCount + 1, dayCount := c.dayCount + 1 })

/-- A lock-serialized sequence of `consumeSendQuota` calls within one
hour/day window. -/
def consumeRun (maxHour maxDay : Nat) (nowKeys : NowKeys) :
    Nat → Option Counter → List QuotaResult × Option Counter
  | 0, file => ([], file)
  | n + 1, file =>
    let r := consumeSendQuota maxHour maxDay nowKeys file
    let rest := consumeRun maxHour maxDay nowKeys n r.2
    (r.1 :: rest.1, rest.2)

theorem rollover_keys (nowKeys : NowKeys) (c : Counter) :
    (rollover nowKeys c).hourKey = nowKeys.hourKey
      ∧ (rollover nowKeys c).dayKey = nowKeys.dayKey := by
  simp only [rollover]
  split_ifs <;> simp_all

theorem rollover_fixed (nowKeys : NowKeys) (c : Counter)
    (h1 : c.hourKey = nowKeys.hourKey) (h2 : c.dayKey = nowKeys.dayKey) :
    rollover nowKeys c = c := by
  simp [rollover, h1, h2]

theorem consumeRun_count (M D : Nat) (keys : NowKeys) :
    ∀ (n k : Nat) (file : Option Counter),
      (rollover keys (load keys file)).hourCount = k →
      (rollover keys (load keys file)).dayCount = k →
      k + n ≤ D →
      ((consumeRun M D keys n file).1.countP (fun r => r.ok)) = min n (M - k) := by
  intro n
  induction n with
  | zero =>
    intro k file _ _ _
    rw [show (consumeRun M D keys 0 file).1 = [] from rfl]
    rw [List.countP_nil]
    omega
  | succ n ih =>
    intro k file hh hd hD
    simp only [consumeRun, consumeSendQuota]
    by_cases hM : M ≤ (rollover keys (load keys file)).hourCount
    · rw [if_pos hM]
      try dsimp only
      simp only [List.countP_cons]
      rw [ih k file hh hd (by omega)]
      simp
      omega
    · rw [if_neg hM, if_neg (by omega)]
      try dsimp only
      simp only [List.countP_cons]
      have hkeys := rollover_keys keys (load keys file)
      set c := rollover keys (load keys file) with hc
      have hfix : rollover keys (load keys
          (some { c with hourCount := c.hourCount + 1, dayCount := c.dayCount + 1 }))
          = { c with hourCount := c.hourCount + 1, dayCount := c.dayCount + 1 } :=
        rollover_fixed _ _ hkeys.1 hkeys.2
      rw [ih (k + 1)
        (some { c with hourCount := c.hourCount + 1, dayCount := c.dayCount + 1 })
        (by rw [hfix]; simp [hh]) (by rw [hfix]; simp [hd]) (by omega)]
      simp
      omega

/-- C5: after rollover, `consumeSendQuota` denies with
`hour_limit_exceeded` when the hour count has reached the hour max (the
hour check runs first), else with `day_limit_exceeded` when the day count
has reached the day max, leaving the persisted file unchanged in both
cases; on success it increments both counts by exactly one and persists
them — so N serialized calls in one UTC hour starting from no counter
file, with hour max M and day max ≥ N, return exactly min(N, M) oks. -/
theorem consumeSendQuota_claim (maxHour maxDay : Nat) (keys : NowKeys)
    (file : Option Counter) :
    ((maxHour ≤ (rollover keys (load keys file)).hourCount →
        consumeSendQuota maxHour maxDay keys file
          = ({ ok := false, reason := some "hour_limit_exceeded" }, file))
    ∧ ((rollover keys (load keys file)).hourCount < maxHour →
        maxDay ≤ (rollover keys (load keys file)).dayCount →
        consumeSendQuota maxHour maxDay keys file
          = ({ ok := false, reason := some "day_limit_exceeded" }, file))
    ∧ ((rollover keys (load keys file)).hourCount < maxHour →
        (rollover keys (load keys file)).dayCount < maxDay →
        consumeSendQuota maxHour maxDay keys file
          = ({ ok := true, reason := none },
              some { rollover keys (load keys file) with
                hourCount := (rollover keys (load keys file)).hourCount + 1,
                dayCount := (rollover keys (load keys file)).dayCount + 1 })))
  ∧ (∀ N M D : Nat, N ≤ D →
      ((consumeRun M D keys N none).1.countP (fun r => r.ok)) = min N M) := by
  refine ⟨⟨?_, ?_, ?_⟩, ?_⟩
  · intro h
    simp [consumeSendQuota, h]
  · intro h1 h2
    simp [consumeSendQuota, h2]
    omega
  · intro h1 h2
    simp only [consumeSendQuota]
    rw [if_neg (by omega), if_neg (by omega)]
  · intro N M D hND
    have := consumeRun_count M D keys N 0 none (by simp [load, rollover]) (by simp [load, rollover]) (by omega)
    simpa using this

/-- Witness for `consumeSendQuota_claim`: three calls with hour max 2 and
day max 10 yield exactly two oks. -/
theorem consumeSendQuota_claim_witness :
    ((consumeRun 2 10 ⟨"2026-10-12-05", "2026-10-12"⟩ 3 none).1.countP
      (fun r => r.ok)) = min 3 2 :=
  (consumeSendQuota_claim 2 10 ⟨"2026-10-12-05", "2026-10-12"⟩ none).2 3 2 10 (by decide)

/-! ## Email read handler (`src/src/server.ts`, `/v1/email/unread`)

`stripQuotedReplyText` and `classifyAuthSensitive` enter as function
parameters (`strip`, `classify`): the claim is about how the handler
routes messages on the classifier's verdict, for any classifier. -/

structure EmailMsg where
  id : String
  threadId : String
  fromAddr : Option String
  toAddr : Option String
  subject : Option String
  snippet : Option String
  body : Option String
  internalDate : Option String
  deriving DecidableEq

structure TransformedMsg where
  id : String
  threadId : String
  fromAddr : String
  toAddr : String
  subject : String
  snippet : String
  body : String
  internalDate : Option String
  sensitivity : String
  deriving DecidableEq

inductive ContextMode where
  | full_thread : ContextMode
  | latest_only : ContextMode
  deriving DecidableEq

inductive AuthMode where
  | block : AuthMode
  | warn : AuthMode
  deriving DecidableEq

structure WarnEntry where
  id : String
  threadId : String
  wouldBlock : Bool
  reason : String
  category : String
  deriving DecidableEq

def warnEntryOf (m : TransformedMsg) : WarnEntry :=
  { id := m.id, threadId := m.threadId, wouldBlock := true,
    reason := "auth_artifact_detected", category := "auth_sensitive" }

/-- The per-message transform in the `/v1/email/unread` handler. -/
def transformOne (strip : String → String) (classify : String → Bool)
    (contextMode : ContextMode) (m : EmailMsg) : TransformedMsg :=
  let subject := m.subject.getD ""
  let snippet :=
    if contextMode = .latest_only then strip (m.snippet.getD "") else m.snippet.getD ""
  let body :=
    if contextMode = .latest_only then strip (m.body.getD "") else m.body.getD ""
  let sensitive := classify (subject ++ "\n" ++ snippet ++ "\n" ++ body)
  { id := m.id, threadId := m.threadId, fromAddr := m.fromAddr.getD "",
    toAddr := m.toAddr.getD "", subject := subject, snippet := snippet, body := body,
    internalDate := m.internalDate,
    sensitivity := if sensitive then "auth_sensitive" else "normal" }

structure EmailResponse where
  days : Rat
  contextMode : ContextMode
  authHandlingMode : AuthMode
  count : Nat
  items : List TransformedMsg
  warnings : Option (List WarnEntry)

/-- The response assembly of the `/v1/email/unread` handler. -/
def emailUnreadResponse (strip : String → String) (classify : String → Bool)
    (authHandlingMode : AuthMode) (contextMode : ContextMode) (days : Rat)
    (raw : List EmailMsg) : EmailResponse :=
  let transformed := raw.map (transformOne strip classify contextMode)
  let items :=
    if authHandlingMode = .block then
      transformed.filter (fun m => m.sensitivity = "normal")
    else transformed
  { days := days, contextMode := contextMode, authHandlingMode := authHandlingMode,
    count := items.length, items := items,
    warnings :=
      if authHandlingMode = .warn then
        some ((transformed.filter (fun m => m.sensitivity = "auth_sensitive")).map warnEntryOf)
      else none }

/-- C4: an auth-sensitive message (classified after latest-only stripping
when in effect) is dropped from `items` under mode `block`, and under
mode `warn` it stays in `items` and contributes a
`\x7bid, threadId, wouldBlock: true, reason: "auth_artifact_detected",
category: "auth_sensitive"\x7d` entry to `warnings`; a normal message is
always in `items` and (with distinct message ids) never in `warnings`. -/
theorem emailUnreadResponse_items (strip : String → String) (classify : String → Bool)
    (mode : AuthMode) (ctx : ContextMode) (days : Rat) (raw : List EmailMsg) :
    (emailUnreadResponse strip classify mode ctx days raw).items
      = (if mode = .block then
          (raw.map (transformOne strip classify ctx)).filter
            (fun m => m.sensitivity = "normal")
        else raw.map (transformOne strip classify ctx)) := rfl

theorem emailUnreadResponse_warnings (strip : String → String) (classify : String → Bool)
    (mode : AuthMode) (ctx : ContextMode) (days : Rat) (raw : List EmailMsg) :
    (emailUnreadResponse strip classify mode ctx days raw).warnings
      = (if mode = .warn then
          some (((raw.map (transformOne strip classify ctx)).filter
            (fun m => m.sensitivity = "auth_sensitive")).map warnEntryOf)
        else none) := rfl

theorem email_sensitivity_claim
    (strip : String → String) (classify : String → Bool)
    (mode : AuthMode) (ctx : ContextMode) (days : Rat) (raw : List EmailMsg)
    (hnd : (raw.map (fun m => m.id)).Nodup)
    (m : EmailMsg) (hm : m ∈ raw)
    (t : TransformedMsg) (ht : t = transformOne strip classify ctx m)
    (resp : EmailResponse)
    (hresp : resp = emailUnreadResponse strip classify mode ctx days raw) :
    (t.sensitivity = "auth_sensitive" →
        (mode = .block → t ∉ resp.items)
      ∧ (mode = .warn → t ∈ resp.items ∧ warnEntryOf t ∈ resp.warnings.getD []))
  ∧ (t.sensitivity = "normal" →
        t ∈ resp.items ∧ ∀ w ∈ resp.warnings.getD [], w.id ≠ t.id) := by
  subst hresp
  have htm : t ∈ raw.map (transformOne strip classify ctx) :=
    ht ▸ List.mem_map_of_mem _ hm
  rw [emailUnreadResponse_items, emailUnreadResponse_warnings]
  constructor
  · intro hsens
    constructor
    · intro hmode
      subst hmode
      rw [if_pos rfl]
      intro hmem
      have := List.of_mem_filter hmem
      rw [hsens] at this
      simp at this
    · intro hmode
      subst hmode
      rw [if_neg (by decide), if_pos rfl]
      refine ⟨htm, ?_⟩
      rw [Option.getD_some]
      exact List.mem_map_of_mem _ (List.mem_filter.mpr ⟨htm, by simp [hsens]⟩)
  · intro hsens
    constructor
    · cases mode with
      | block =>
        rw [if_pos rfl]
        exact List.mem_filter.mpr ⟨htm, by simp [hsens]⟩
      | warn =>
        rw [if_neg (by decide)]
        exact htm
    · cases mode with
      | block =>
        rw [if_neg (by decide)]
        intro w hw
        simp at hw
      | warn =>
        rw [if_pos rfl, Option.getD_some]
        intro w hw
        obtain ⟨t2, ht2, hwe⟩ := List.mem_map.mp hw
        have ht2f := List.mem_filter.mp ht2
        obtain ⟨r2, hr2, hr2t⟩ := List.mem_map.mp ht2f.1
        intro hid
        have hid2 : r2.id = m.id := by
          have e1 : w.id = t2.id := by rw [← hwe]; rfl
          have e2 : t2.id = r2.id := by rw [← hr2t]; rfl
          have e3 : t.id = m.id := by rw [ht]; rfl
          rw [e1, e2] at hid
          rw [e3] at hid
          exact hid
        have := List.inj_on_of_nodup_map hnd hr2 hm hid2
        subst this
        have htt2 : t = t2 := ht.trans hr2t
        rw [← htt2] at ht2f
        have hs2 := ht2f.2
        rw [hsens] at hs2
        simp at hs2

def stripW : String → String := fun s => s

def classifyW : String → Bool := fun s => jsIncludesChar s 'O'

def msgN : EmailMsg := ⟨"1", "t1", none, none, some "hello", some "normal", none, none⟩

def msgS : EmailMsg := ⟨"2", "t2", none, none, some "OTP 999999", some "login code", none, none⟩

/-- Witness for `email_sensitivity_claim`: under mode `warn` a sensitive
message stays in items and appears in warnings. -/
theorem email_sensitivity_claim_witness :
    transformOne stripW classifyW .full_thread msgS
        ∈ (emailUnreadResponse stripW classifyW .warn .full_thread 2 [msgN, msgS]).items
    ∧ warnEntryOf (transformOne stripW classifyW .full_thread msgS)
        ∈ (emailUnreadResponse stripW classifyW .warn .full_thread 2
            [msgN, msgS]).warnings.getD [] :=
  ((email_sensitivity_claim stripW classifyW .warn .full_thread 2 [msgN, msgS]
      (by decide) msgS (by decide)
      (transformOne stripW classifyW .full_thread msgS) rfl
      (emailUnreadResponse stripW classifyW .warn .full_thread 2 [msgN, msgS]) rfl).1
    (by decide)).2 rfl

/-! ## Calendar read projection (`src/src/server.ts`, `/v1/calendar/events`) -/

structure Attendee where
  email : Option String
  displayName : Option String
  self : Option Bool
  responseStatus : Option String
  deriving DecidableEq

structure CalendarEvent where
  id : String
  summary : Option String
  startDateTime : Option String
  startDate : Option String
  endDateTime : Option String
  endDate : Option String
  location : Option String
  hangoutLink : Option String
  attendees : Option (List Attendee)
  deriving DecidableEq

structure ProjAttendee where
  email : Option String
  displayName : Option String
  self : Option Bool
  responseStatus : Option String
  deriving DecidableEq

/-- A projected calendar item; an `Option` field that is `none` models the
key being absent from the JSON object. -/
structure CalendarItem where
  id : String
  summary : String
  start : Option String
  stop : Option String
  location : Option String
  hangoutLink : Option String
  attendees : Option (List ProjAttendee)
  deriving DecidableEq

/-- JS `x || null` on a nullable string: the empty string collapses to null. -/
def jsOrNull (o : Option String) : Option String :=
  match o with
  | some s => if s = "" then none else some s
  | none => none

/-- Truthiness of a nullable string. -/
def jsTruthy (o : Option String) : Bool :=
  match o with
  | some s => ¬ s = ""
  | none => false

/-- The per-event projection in the `/v1/calendar/events` GET handler:
`location`/`hangoutLink`/`attendees` are spread in only when the policy
flag is on *and* the source value is truthy (non-empty / non-empty list). -/
def projectEvent (allowLocation allowMeetingUrls allowAttendeeEmails : Bool)
    (e : CalendarEvent) : CalendarItem :=
  { id := e.id,
    summary := e.summary.getD "",
    start := jsOrNull (jsOrStr e.startDateTime e.startDate),
    stop := jsOrNull (jsOrStr e.endDateTime e.endDate),
    location := if allowLocation && jsTruthy e.location then e.location else none,
    hangoutLink := if allowMeetingUrls && jsTruthy e.hangoutLink then e.hangoutLink else none,
    attendees :=
      if allowAttendeeEmails
          && (match e.attendees with
              | some l => ¬ l.isEmpty
              | none => false) then
        some ((e.attendees.getD []).map
          (fun a => ⟨a.email, a.displayName, a.self, a.responseStatus⟩))
      else none }

/-- C9 (counterexample): the claim says the `location` key appears iff
`allowLocation` is true; but an event carrying no location yields no
`location` key even with the flag on (same for the other two gates). -/
theorem calendar_projection_claim_counterexample :
    (projectEvent true true true
      ⟨"e1", some "Standup", none, none, none, none, none, none, none⟩).location = none
    ∧ (projectEvent true true true
      ⟨"e1", some "Standup", none, none, none, none, none, none, none⟩).attendees = none := by
  exact ⟨rfl, rfl⟩

/-- C9 (amended): every projected item carries `id`, `summary`, `start`,
`end`; the `location` key appears iff `allowLocation` is on **and** the
event has a non-empty location (and then carries that location);
`hangoutLink` likewise; `attendees` appears iff `allowAttendeeEmails` is
on and the event has a non-empty attendee list, each attendee projected
to `\x7bemail, displayName, self, responseStatus\x7d`. -/
theorem calendar_projection_claim_amended
    (aL aM aA : Bool) (e : CalendarEvent) :
    (projectEvent aL aM aA e).id = e.id
  ∧ (projectEvent aL aM aA e).summary = e.summary.getD ""
  ∧ (projectEvent aL aM aA e).start = jsOrNull (jsOrStr e.startDateTime e.startDate)
  ∧ (projectEvent aL aM aA e).stop = jsOrNull (jsOrStr e.endDateTime e.endDate)
  ∧ ((projectEvent aL aM aA e).location.isSome
      ↔ (aL = true ∧ jsTruthy e.location = true))
  ∧ ((projectEvent aL aM aA e).location.isSome →
      (projectEvent aL aM aA e).location = e.location)
  ∧ ((projectEvent aL aM aA e).hangoutLink.isSome
      ↔ (aM = true ∧ jsTruthy e.hangoutLink = true))
  ∧ ((projectEvent aL aM aA e).hangoutLink.isSome →
      (projectEvent aL aM aA e).hangoutLink = e.hangoutLink)
  ∧ ((projectEvent aL aM aA e).attendees.isSome
      ↔ (aA = true ∧ ∃ l, e.attendees = some l ∧ l ≠ []))
  ∧ (∀ l, e.attendees = some l → l ≠ [] → aA = true →
      (projectEvent aL aM aA e).attendees
        = some (l.map (fun a => ⟨a.email, a.displayName, a.self, a.responseStatus⟩))) := by
  refine ⟨rfl, rfl, rfl, rfl, ?_, ?_, ?_, ?_, ?_, ?_⟩
  · simp only [projectEvent]
    split_ifs with h
    · simp only [Bool.and_eq_true] at h
      cases he : e.location with
      | none => rw [he] at h; simp [jsTruthy] at h
      | some s =>
        rw [he] at h
        simp [he, h.1, h.2]
    · simp only [Bool.and_eq_true] at h
      simp only [Option.isSome_none, Bool.false_eq_true, false_iff]
      exact fun hc => h ⟨hc.1, hc.2⟩
  · simp only [projectEvent]
    split_ifs with h
    · exact fun _ => rfl
    · intro hc
      cases hc
  · simp only [projectEvent]
    split_ifs with h
    · simp only [Bool.and_eq_true] at h
      cases he : e.hangoutLink with
      | none => rw [he] at h; simp [jsTruthy] at h
      | some s =>
        rw [he] at h
        simp [he, h.1, h.2]
    · simp only [Bool.and_eq_true] at h
      simp only [Option.isSome_none, Bool.false_eq_true, false_iff]
      exact fun hc => h ⟨hc.1, hc.2⟩
  · simp only [projectEvent]
    split_ifs with h
    · exact fun _ => rfl
    · intro hc
      cases hc
  · simp only [projectEvent]
    split_ifs with h
    · simp only [Bool.and_eq_true] at h
      refine ⟨fun _ => ⟨h.1, ?_⟩, fun _ => rfl⟩
      cases he : e.attendees with
      | none => rw [he] at h; simp at h
      | some l =>
        rw [he] at h
        refine ⟨l, rfl, ?_⟩
        have := h.2
        simp only [List.isEmpty_iff] at this
        simpa using this
    · simp only [Bool.and_eq_true] at h
      simp only [Option.isSome_none, Bool.false_eq_true, false_iff]
      intro hc
      obtain ⟨hA, l, hl, hne⟩ := hc
      exact h ⟨hA, by rw [hl]; simpa [List.isEmpty_iff] using hne⟩
  · intro l hl hne hA
    simp only [projectEvent]
    rw [if_pos (by rw [hl, hA]; simpa [List.isEmpty_iff] using hne)]
    rw [hl]
    rfl

/-- Witness for `calendar_projection_claim_amended` at the spec's concrete
scenario (location and meeting URLs off, attendees on). -/
theorem calendar_projection_claim_amended_witness :
    (projectEvent false false true
      ⟨"e1", some "Standup", none, none, none, none, some "123 Main St",
        some "https://meet.google.com/abc",
        some [⟨some "alice@example.com", none, some true, some "accepted"⟩]⟩).attendees
      = some [⟨some "alice@example.com", none, some true, some "accepted"⟩] :=
  (calendar_projection_claim_amended false false true
    ⟨"e1", some "Standup", none, none, none, none, some "123 Main St",
      some "https://meet.google.com/abc",
      some [⟨some "alice@example.com", none, some true, some "accepted"⟩]⟩).2.2.2.2.2.2.2.2.2
    [⟨some "alice@example.com", none, some true, some "accepted"⟩] rfl (by decide) rfl

/-! ## Outbound reply route with failure containment
(`src/src/server.ts`: the `/v1/email/reply` handler and the `onError`
hook).  The provider call is an `Except`: `.error` is the adapter
throwing, which escapes the handler and is caught by `onError`, which
logs `request_error` and answers 502 `upstream_failure`. -/

structure OutboundPolicy where
  replyOnlyDefault : Bool
  allowAllRecipients : Bool
  allowReplyToAnyone : Bool
  recipientAllowlist : List String
  domainAllowlist : List String
  maxSendsPerHour : Nat
  maxSendsPerDay : Nat
  deriving DecidableEq

structure ReplyBody where
  threadId : Option String
  toAddr : Option String
  subject : Option String
  body : Option String
  deriving DecidableEq

inductive ParseResult where
  | ok : ReplyBody → ParseResult
  | tooLarge : ParseResult
  | invalidJson : ParseResult
  deriving DecidableEq

structure HttpResponse where
  status : Nat
  error : Option String
  id : Option String
  deriving DecidableEq

structure AuditEntry where
  action : String
  code : Option String
  deriving DecidableEq

/-- The `/v1/email/reply` handler composed with the top-level `onError`
hook, acting on the persisted send counter and the audit log. -/
def emailReplyRoute (pol : OutboundPolicy) (parsed : ParseResult) (keys : NowKeys)
    (provider : Except String String) (file : Option Counter)
    (log : List AuditEntry) : HttpResponse × Option Counter × List AuditEntry :=
  match parsed with
  | .tooLarge => ({ status := 413, error := some "payload_too_large", id := none }, file, log)
  | .invalidJson => ({ status := 400, error := some "invalid_json", id := none }, file, log)
  | .ok b =>
    if ¬ jsTruthy b.threadId ∨ ¬ jsTruthy b.toAddr
        ∨ ¬ jsTruthy b.subject ∨ ¬ jsTruthy b.body then
      ({ status := 400, error := some "missing_fields", id := none }, file, log)
    else if ¬ pol.allowReplyToAnyone
        ∧ ¬ allowedRecipient (b.toAddr.getD "") pol.recipientAllowlist pol.domainAllowlist
            pol.allowAllRecipients then
      ({ status := 403, error := some "recipient_not_allowed", id := none }, file, log)
    else
      let lim := consumeSendQuota pol.maxSendsPerHour pol.maxSendsPerDay keys file
      if ¬ lim.1.ok then
        ({ status := 429, error := some (lim.1.reason.getD "rate_limited"), id := none },
          lim.2, log)
      else
        match provider with
        | .ok rid =>
          ({ status := 200, error := none, id := some rid }, lim.2,
            log ++ [{ action := "send_reply", code := none }])
        | .error code =>
          ({ status := 502, error := some "upstream_failure", id := none }, lim.2,
            log ++ [{ action := "request_error", code := some code }])

theorem consumeSendQuota_ok_eq (maxHour maxDay : Nat) (keys : NowKeys)
    (file : Option Counter)
    (hH : (rollover keys (load keys file)).hourCount < maxHour)
    (hD : (rollover keys (load keys file)).dayCount < maxDay) :
    consumeSendQuota maxHour maxDay keys file
      = ({ ok := true, reason := none },
          some { rollover keys (load keys file) with
            hourCount := (rollover keys (load keys file)).hourCount + 1,
            dayCount := (rollover keys (load keys file)).dayCount + 1 }) := by
  simp only [consumeSendQuota]
  rw [if_neg (by omega), if_neg (by omega)]

/-- C6: if the provider throws after admission and quota consumption, the
response is 502 `upstream_failure`, the only audit entry appended is a
`request_error` (no `send_reply`/`send_new`), and the persisted counter
keeps the consumed unit — both counts stay incremented by one. -/
theorem upstream_failure_claim (pol : OutboundPolicy) (b : ReplyBody)
    (keys : NowKeys) (errCode : String) (file : Option Counter)
    (log : List AuditEntry)
    (hfields : jsTruthy b.threadId = true ∧ jsTruthy b.toAddr = true
      ∧ jsTruthy b.subject = true ∧ jsTruthy b.body = true)
    (hrec : pol.allowReplyToAnyone = true
      ∨ allowedRecipient (b.toAddr.getD "") pol.recipientAllowlist pol.domainAllowlist
          pol.allowAllRecipients = true)
    (hH : (rollover keys (load keys file)).hourCount < pol.maxSendsPerHour)
    (hD : (rollover keys (load keys file)).dayCount < pol.maxSendsPerDay) :
    emailReplyRoute pol (.ok b) keys (.error errCode) file log
      = ({ status := 502, error := some "upstream_failure", id := none },
          some { rollover keys (load keys file) with
            hourCount := (rollover keys (load keys file)).hourCount + 1,
            dayCount := (rollover keys (load keys file)).dayCount + 1 },
          log ++ [{ action := "request_error", code := some errCode }])
    ∧ (∀ a ∈ (emailReplyRoute pol (.ok b) keys (.error errCode) file log).2.2,
        a ∈ log ∨ (a.action ≠ "send_reply" ∧ a.action ≠ "send_new")) := by
  have hmain : emailReplyRoute pol (.ok b) keys (.error errCode) file log
      = ({ status := 502, error := some "upstream_failure", id := none },
          some { rollover keys (load keys file) with
            hourCount := (rollover keys (load keys file)).hourCount + 1,
            dayCount := (rollover keys (load keys file)).dayCount + 1 },
          log ++ [{ action := "request_error", code := some errCode }]) := by
    simp only [emailReplyRoute]
    rw [if_neg (by simp [hfields.1, hfields.2.1, hfields.2.2.1, hfields.2.2.2])]
    rw [if_neg (by rcases hrec with h | h <;> simp [h])]
    rw [consumeSendQuota_ok_eq pol.maxSendsPerHour pol.maxSendsPerDay keys file hH hD]
    dsimp only
    rw [if_neg (by simp)]
  refine ⟨hmain, ?_⟩
  rw [hmain]
  intro a ha
  simp only [List.mem_append, List.mem_singleton] at ha
  cases ha with
  | inl h => exact Or.inl h
  | inr h =>
    subst h
    exact Or.inr ⟨by simp, by simp⟩

/-- Witness for `upstream_failure_claim` at concrete inputs. -/
theorem upstream_failure_claim_witness :
    emailReplyRoute ⟨true, false, true, [], [], 5, 25⟩
        (.ok ⟨some "t1", some "ok@example.com", some "Re", some "hi"⟩)
        ⟨"2026-10-12-05", "2026-10-12"⟩ (.error "ETIMEDOUT") none []
      = ({ status := 502, error := some "upstream_failure", id := none },
          some ⟨"2026-10-12-05", "2026-10-12", 1, 1⟩,
          [{ action := "request_error", code := some "ETIMEDOUT" }]) :=
  (upstream_failure_claim ⟨true, false, true, [], [], 5, 25⟩
    ⟨some "t1", some "ok@example.com", some "Re", some "hi"⟩
    ⟨"2026-10-12-05", "2026-10-12"⟩ "ETIMEDOUT" none []
    ⟨by decide, by decide, by decide, by decide⟩ (Or.inl rfl)
    (by decide) (by decide)).1

end GShield
